import Mathlib

/-!
# Verification of the PulseEngine trading core

Shallow embedding of the simulation and accounting core:

* `src/core/paper_trader/paper_trader.py` — order lifecycle, execution,
  tick-driven matching, ledger and position book (`PaperTrader`);
* `src/core/backtester/engine.py` — the bar-by-bar backtest loop and its
  summary metrics (`BacktestEngine`);
* `src/core/optimizer/strategy_optimizer.py` — grid search (`grid_search`).

Python floats are modelled as exact rationals (`ℚ`); wall-clock timestamps
(`datetime.now()`) are not observable by any verified property and are
omitted; the string order ids `ORDER_{n}_{ts}` are modelled by their unique
counter component `n`.  Python dicts keyed by symbol are modelled as
association lists with unique keys, preserving insertion order.
-/

namespace PulseEngine

/-! ## Association-list helpers (Python `dict` keyed by symbol) -/

/-- Lookup in an association list (first matching key, as in a dict with
unique keys). -/
def alookup {β : Type} : List (String × β) → String → Option β
  | [], _ => none
  | (s, b) :: rest, sym => if s = sym then some b else alookup rest sym

/-- Replace the value stored at a key (in place, first occurrence). -/
def aset {β : Type} : List (String × β) → String → β → List (String × β)
  | [], _, _ => []
  | (s, b) :: rest, sym, v =>
    if s = sym then (s, v) :: rest else (s, b) :: aset rest sym v

/-- Delete a key (first occurrence), as Python `del d[k]`. -/
def aerase {β : Type} : List (String × β) → String → List (String × β)
  | [], _ => []
  | (s, b) :: rest, sym => if s = sym then rest else (s, b) :: aerase rest sym

/-! ## Data model of `paper_trader.py` -/

/-- `OrderStatus` enum. -/
inductive OrderStatus
  | pending | filled | cancelled | rejected
deriving DecidableEq, Repr

/-- `OrderType` enum. -/
inductive OrderType
  | market | limit | stop | stop_limit
deriving DecidableEq, Repr

/-- `OrderSide` enum. -/
inductive OrderSide
  | buy | sell
deriving DecidableEq, Repr

/-- The `Order` dataclass.  `order_id` is the unique counter component of
the Python id string; the wall-clock fields `created_at` / `filled_at` are
not modelled. -/
structure Order where
  order_id : Nat
  symbol : String
  side : OrderSide
  order_type : OrderType
  quantity : ℚ
  price : Option ℚ := none
  stop_price : Option ℚ := none
  status : OrderStatus := OrderStatus.pending
  filled_quantity : ℚ := 0
  filled_price : Option ℚ := none
deriving DecidableEq, Repr

/-- The `Position` dataclass. -/
structure Position where
  symbol : String
  quantity : ℚ
  avg_price : ℚ
  current_price : ℚ
deriving DecidableEq, Repr

/-- One entry of `trade_history` (the dict appended by `execute_order`);
the wall-clock timestamp field is not modelled. -/
structure TradeRecord where
  order_id : Nat
  symbol : String
  side : OrderSide
  quantity : ℚ
  price : ℚ
  commission : ℚ
deriving DecidableEq, Repr

/-- The mutable state of a `PaperTrader` instance. -/
structure PaperTrader where
  initial_capital : ℚ
  cash : ℚ
  commission : ℚ
  positions : List (String × Position)
  orders : List Order
  trade_history : List TradeRecord
  order_counter : Nat
deriving DecidableEq, Repr

/-- `PaperTrader.__init__`. -/
def PaperTrader.init (initial_capital : ℚ) (commission : ℚ) : PaperTrader :=
  { initial_capital := initial_capital
    cash := initial_capital
    commission := commission
    positions := []
    orders := []
    trade_history := []
    order_counter := 0 }

/-! ## Operations of `paper_trader.py` -/

/-- `PaperTrader.submit_order`: create a pending order, append it. -/
def submit_order (t : PaperTrader) (symbol : String) (side : OrderSide)
    (order_type : OrderType) (quantity : ℚ) (price : Option ℚ := none)
    (stop_price : Option ℚ := none) : PaperTrader × Order :=
  let counter := t.order_counter + 1
  let order : Order :=
    { order_id := counter, symbol := symbol, side := side,
      order_type := order_type, quantity := quantity, price := price,
      stop_price := stop_price }
  ({ t with order_counter := counter, orders := t.orders ++ [order] }, order)

/-- The position-book effect of `PaperTrader._add_to_position`. -/
def addToPositionBook (ps : List (String × Position)) (symbol : String)
    (quantity price : ℚ) : List (String × Position) :=
  match alookup ps symbol with
  | some position =>
    let total_cost := position.avg_price * position.quantity + price * quantity
    let newQty := position.quantity + quantity
    aset ps symbol
      { position with quantity := newQty, avg_price := total_cost / newQty }
  | none =>
    ps ++ [(symbol, { symbol := symbol, quantity := quantity,
                      avg_price := price, current_price := price })]

/-- `PaperTrader._add_to_position`. -/
def _add_to_position (t : PaperTrader) (symbol : String) (quantity price : ℚ) :
    PaperTrader :=
  { t with positions := addToPositionBook t.positions symbol quantity price }

/-- The position-book effect of `PaperTrader._remove_from_position`. -/
def removeFromPositionBook (ps : List (String × Position)) (symbol : String)
    (quantity : ℚ) : List (String × Position) :=
  match alookup ps symbol with
  | none => ps
  | some position =>
    let newQty := position.quantity - quantity
    if newQty ≤ 0 then aerase ps symbol
    else aset ps symbol { position with quantity := newQty }

/-- `PaperTrader._remove_from_position`. -/
def _remove_from_position (t : PaperTrader) (symbol : String) (quantity : ℚ) :
    PaperTrader :=
  { t with positions := removeFromPositionBook t.positions symbol quantity }

/-- The order as mutated by a successful `execute_order` at
`execution_price`: filled in full, in one step. -/
def filledWith (order : Order) (execution_price : ℚ) : Order :=
  { order with status := OrderStatus.filled,
               filled_quantity := order.quantity,
               filled_price := some execution_price }

/-- The trade-history entry appended by `execute_order`. -/
def recordOf (order : Order) (execution_price commission_cost : ℚ) :
    TradeRecord :=
  { order_id := order.order_id, symbol := order.symbol, side := order.side,
    quantity := order.quantity, price := execution_price,
    commission := commission_cost }

/-- Mark the filled order and append its trade record (the tail of
`execute_order` shared by the buy and sell success paths). -/
def fillOrder (t : PaperTrader) (i : Nat) (order : Order)
    (execution_price commission_cost : ℚ) : PaperTrader :=
  { t with
    orders := t.orders.set i (filledWith order execution_price),
    trade_history := t.trade_history ++
                       [recordOf order execution_price commission_cost] }

/-- Mark the order at index `i` rejected (`order.status = REJECTED` on the
aliased list element). -/
def rejectAt (t : PaperTrader) (i : Nat) (order : Order) : PaperTrader :=
  { t with orders := t.orders.set i { order with status := OrderStatus.rejected } }

/-- `PaperTrader.execute_order`.  Orders are aliased into `t.orders`, so the
Python argument `order` is modelled by its index `i` in the list. -/
def execute_order (t : PaperTrader) (i : Nat) (execution_price : ℚ) :
    PaperTrader × Bool :=
  match t.orders[i]? with
  | none => (t, false)
  | some order =>
    if order.status ≠ OrderStatus.pending then (t, false)
    else
      let trade_value := order.quantity * execution_price
      let commission_cost := trade_value * t.commission
      match order.side with
      | OrderSide.buy =>
        let total_cost := trade_value + commission_cost
        if total_cost > t.cash then (rejectAt t i order, false)
        else
          let t1 := _add_to_position
            { t with cash := t.cash - total_cost } order.symbol
            order.quantity execution_price
          (fillOrder t1 i order execution_price commission_cost, true)
      | OrderSide.sell =>
        match alookup t.positions order.symbol with
        | none => (rejectAt t i order, false)
        | some position =>
          if order.quantity > position.quantity then (rejectAt t i order, false)
          else
            let proceeds := trade_value - commission_cost
            let t1 := _remove_from_position
              { t with cash := t.cash + proceeds } order.symbol order.quantity
            (fillOrder t1 i order execution_price commission_cost, true)

/-- `PaperTrader.process_market_order`. -/
def process_market_order (t : PaperTrader) (i : Nat) (current_price : ℚ) :
    PaperTrader × Bool :=
  execute_order t i current_price

/-- `PaperTrader.process_limit_order`. -/
def process_limit_order (t : PaperTrader) (i : Nat) (current_price : ℚ) :
    PaperTrader × Bool :=
  match t.orders[i]? with
  | none => (t, false)
  | some order =>
    match order.price with
    | none => (t, false)
    | some limit_price =>
      if order.side = OrderSide.buy ∧ current_price ≤ limit_price then
        execute_order t i limit_price
      else if order.side = OrderSide.sell ∧ current_price ≥ limit_price then
        execute_order t i limit_price
      else (t, false)

/-- Mark-to-market pass of `update_market_data`: update `current_price` of
every held position whose symbol appears in the tick map. -/
def markPositions (ps : List (String × Position)) (prices : List (String × ℚ)) :
    List (String × Position) :=
  ps.map (fun e =>
    match alookup prices e.1 with
    | some pr => (e.1, { e.2 with current_price := pr })
    | none => e)

/-- One iteration of the `for order in self.orders` loop of
`update_market_data`, at index `i`. -/
def processTickOrder (t : PaperTrader) (i : Nat) (prices : List (String × ℚ)) :
    PaperTrader :=
  match t.orders[i]? with
  | none => t
  | some order =>
    if order.status ≠ OrderStatus.pending then t
    else
      match alookup prices order.symbol with
      | none => t
      | some current_price =>
        match order.order_type with
        | OrderType.market => (process_market_order t i current_price).1
        | OrderType.limit => (process_limit_order t i current_price).1
        | OrderType.stop => t
        | OrderType.stop_limit => t

/-- The order loop of `update_market_data`, run with `fuel` iterations
starting at index `i` (no operation changes the length of `orders`). -/
def tickLoop (prices : List (String × ℚ)) : Nat → Nat → PaperTrader → PaperTrader
  | 0, _, t => t
  | fuel + 1, i, t => tickLoop prices fuel (i + 1) (processTickOrder t i prices)

/-- `PaperTrader.update_market_data`. -/
def update_market_data (t : PaperTrader) (prices : List (String × ℚ)) :
    PaperTrader :=
  let t1 := { t with positions := markPositions t.positions prices }
  tickLoop prices t1.orders.length 0 t1

/-- The scan of `cancel_order`: cancel the first pending order with the
given id, reporting whether one was found. -/
def cancelLoop (order_id : Nat) : List Order → Option (List Order)
  | [] => none
  | o :: rest =>
    if o.order_id = order_id ∧ o.status = OrderStatus.pending then
      some ({ o with status := OrderStatus.cancelled } :: rest)
    else
      (cancelLoop order_id rest).map (o :: ·)

/-- `PaperTrader.cancel_order`. -/
def cancel_order (t : PaperTrader) (order_id : Nat) : PaperTrader × Bool :=
  match cancelLoop order_id t.orders with
  | some orders => ({ t with orders := orders }, true)
  | none => (t, false)

/-! ## Operation sequences on a `PaperTrader` -/

/-- One externally invokable operation of the paper trader. -/
inductive Op
  | submit (symbol : String) (side : OrderSide) (order_type : OrderType)
      (quantity : ℚ) (price : Option ℚ) (stop_price : Option ℚ)
  | execute (i : Nat) (price : ℚ)
  | tick (prices : List (String × ℚ))
  | cancel (order_id : Nat)

/-- Apply one operation. -/
def step (t : PaperTrader) : Op → PaperTrader
  | Op.submit sym side ot qty price stop =>
      (submit_order t sym side ot qty price stop).1
  | Op.execute i price => (execute_order t i price).1
  | Op.tick prices => update_market_data t prices
  | Op.cancel oid => (cancel_order t oid).1

/-- Run a sequence of operations. -/
def runOps (t : PaperTrader) (ops : List Op) : PaperTrader :=
  ops.foldl step t

/-- The claim's precondition on an operation: strictly positive submitted
quantities, non-negative prices. -/
def OpValid : Op → Prop
  | Op.submit _ _ _ q price _ =>
      0 < q ∧ (match price with | none => True | some lp => 0 ≤ lp)
  | Op.execute _ p => 0 ≤ p
  | Op.tick prices => ∀ pr ∈ prices, 0 ≤ pr.2
  | Op.cancel _ => True

/-! ## Data model of `backtester/engine.py`

Bars carry the pandas index value (`timestamp`, modelled as `Nat`) and the
closing price; the other OHLCV columns are unused by the engine. -/

/-- One input bar. -/
structure Bar where
  timestamp : Nat
  close : ℚ
deriving DecidableEq, Repr

/-- The backtester's `Trade` class (a closed or open position). -/
structure BTrade where
  symbol : String
  entry_time : Nat
  entry_price : ℚ
  quantity : ℤ
  side : String
  exit_time : Option Nat := none
  exit_price : Option ℚ := none
deriving DecidableEq, Repr

/-- `Trade.pnl` (None while the trade is open). -/
def BTrade.pnl (t : BTrade) : Option ℚ :=
  match t.exit_price with
  | none => none
  | some ep =>
    if t.side = "long" then some ((ep - t.entry_price) * (t.quantity : ℚ))
    else some ((t.entry_price - ep) * (t.quantity : ℚ))

/-- One `equity_curve` entry. -/
structure EquityPoint where
  timestamp : Nat
  equity : ℚ
  capital : ℚ
deriving DecidableEq, Repr

/-- The state of a `BacktestEngine` instance. -/
structure BacktestEngine where
  initial_capital : ℚ
  commission : ℚ
  capital : ℚ
  trades : List BTrade
  equity_curve : List EquityPoint
deriving DecidableEq, Repr

/-- `BacktestEngine.__init__`. -/
def BacktestEngine.mk' (initial_capital commission : ℚ) : BacktestEngine :=
  { initial_capital := initial_capital, commission := commission,
    capital := initial_capital, trades := [], equity_curve := [] }

/-- The metrics dict returned by `_calculate_metrics`.  The zero-trade
branch of the Python code returns a dict without a `max_drawdown` key, so
that field is an `Option`, `none` meaning the key is absent. -/
structure Metrics where
  total_trades : Nat
  winning_trades : Nat
  losing_trades : Nat
  total_pnl : ℚ
  total_return : ℚ
  win_rate : ℚ
  avg_win : ℚ
  avg_loss : ℚ
  profit_factor : ℚ
  final_capital : ℚ
  max_drawdown : Option ℚ
deriving DecidableEq, Repr

/-- Python truthiness test `if t.pnl` composed with a comparison:
`t.pnl and t.pnl > 0` — `None` and `0.0` are both falsy. -/
def pnlPos (t : BTrade) : Bool :=
  match t.pnl with
  | none => false
  | some p => decide (0 < p)

/-- `t.pnl and t.pnl < 0`. -/
def pnlNeg (t : BTrade) : Bool :=
  match t.pnl with
  | none => false
  | some p => decide (p < 0)

/-- `sum(t.pnl for t in trades if t.pnl)` — skipping falsy (None or zero)
values does not change the rational sum. -/
def sumPnl (ts : List BTrade) : ℚ :=
  (ts.map (fun t => (t.pnl).getD 0)).sum

/-- The loop of `_calculate_max_drawdown` over the equity values. -/
def mddLoop (peak max_dd : ℚ) : List ℚ → ℚ
  | [] => max_dd
  | v :: rest =>
    let peak1 := if v > peak then v else peak
    let dd := (peak1 - v) / peak1
    let max_dd1 := if dd > max_dd then dd else max_dd
    mddLoop peak1 max_dd1 rest

/-- `BacktestEngine._calculate_max_drawdown`.  (If a running peak is `0`
Python would raise `ZeroDivisionError`; `ℚ` division totalises this as
`x / 0 = 0`.) -/
def _calculate_max_drawdown (e : BacktestEngine) : ℚ :=
  match e.equity_curve.map EquityPoint.equity with
  | [] => 0
  | v :: vs => mddLoop v 0 (v :: vs)

/-- `BacktestEngine._calculate_metrics`. -/
def _calculate_metrics (e : BacktestEngine) : Metrics :=
  if e.trades = [] then
    { total_trades := 0, winning_trades := 0, losing_trades := 0,
      total_pnl := 0, total_return := 0, win_rate := 0, avg_win := 0,
      avg_loss := 0, profit_factor := 0, final_capital := e.capital,
      max_drawdown := none }
  else
    let winning := e.trades.filter pnlPos
    let losing := e.trades.filter pnlNeg
    let total_pnl := sumPnl e.trades
    let total_return := (e.capital - e.initial_capital) / e.initial_capital
    let avg_win := if winning ≠ [] then sumPnl winning / winning.length else 0
    let avg_loss := if losing ≠ [] then |sumPnl losing / losing.length| else 0
    let gross_profit := sumPnl winning
    let gross_loss := |sumPnl losing|
    let profit_factor := if gross_loss > 0 then gross_profit / gross_loss else 0
    { total_trades := e.trades.length, winning_trades := winning.length,
      losing_trades := losing.length, total_pnl := total_pnl,
      total_return := total_return,
      win_rate := (winning.length : ℚ) / (e.trades.length : ℚ),
      avg_win := avg_win, avg_loss := avg_loss, profit_factor := profit_factor,
      final_capital := e.capital,
      max_drawdown := some (_calculate_max_drawdown e) }

/-- Python `int()` applied to a rational: truncation toward zero. -/
def pyInt (q : ℚ) : ℤ :=
  if 0 ≤ q then ⌊q⌋ else ⌈q⌉

/-- `signals.iloc[i] if i < len(signals) else 0`. -/
def getSignal (signals : List ℚ) (i : Nat) : ℚ :=
  (signals[i]?).getD 0

/-- The local state of the `run_backtest` loop. -/
structure RunState where
  capital : ℚ
  position : Option BTrade
  trades : List BTrade
  equity_curve : List EquityPoint
deriving DecidableEq, Repr

/-- The body of the `for i, (idx, row) in enumerate(data.iterrows())` loop.
The Python guard pair `if signal > 0 and position is None / elif signal < 0
and position is not None` is rendered as a match on the position. -/
def processBar (commission : ℚ) (s : RunState) (bar : Bar) (signal : ℚ) :
    RunState :=
  let current_value := s.capital +
    (match s.position with
     | some position => (bar.close - position.entry_price) * (position.quantity : ℚ)
     | none => 0)
  let s1 := { s with equity_curve :=
                s.equity_curve ++
                  [({ timestamp := bar.timestamp, equity := current_value,
                      capital := s.capital } : EquityPoint)] }
  match s1.position with
  | none =>
    if 0 < signal then
      let quantity : ℤ := pyInt (s1.capital * (95 / 100) / bar.close)
      let cost := (quantity : ℚ) * bar.close * (1 + commission)
      if cost ≤ s1.capital then
        { s1 with position := some ({ symbol := "SYMBOL",
                                      entry_time := bar.timestamp,
                                      entry_price := bar.close,
                                      quantity := quantity,
                                      side := "long" } : BTrade),
                  capital := s1.capital - cost }
      else s1
    else s1
  | some position =>
    if signal < 0 then
      let proceeds := (position.quantity : ℚ) * bar.close * (1 - commission)
      { s1 with capital := s1.capital + proceeds,
                trades := s1.trades ++
                  [{ position with exit_time := some bar.timestamp,
                                   exit_price := some bar.close }],
                position := none }
    else s1

/-- The bar loop, carrying the enumeration index used to read signals. -/
def processBars (commission : ℚ) (signals : List ℚ) :
    List Bar → Nat → RunState → RunState
  | [], _, s => s
  | bar :: rest, i, s =>
    processBars commission signals rest (i + 1)
      (processBar commission s bar (getSignal signals i))

/-- The `# Close any open position at the end` block of `run_backtest`.
(An open position with an empty series is impossible; Python would raise on
`data.iloc[-1]`, modelled as a no-op on the unreachable branch.) -/
def forceClose (commission : ℚ) (data : List Bar) (s : RunState) : RunState :=
  match s.position with
  | none => s
  | some position =>
    match data.getLast? with
    | none => s
    | some lastBar =>
      let proceeds := (position.quantity : ℚ) * lastBar.close * (1 - commission)
      { s with capital := s.capital + proceeds,
               trades := s.trades ++
                 [{ position with exit_time := some lastBar.timestamp,
                                  exit_price := some lastBar.close }],
               position := none }

/-- `BacktestEngine.run_backtest`.  The signal sequence produced by the
(pure) strategy function on `(data, params)` is passed directly. -/
def run_backtest (e : BacktestEngine) (data : List Bar) (signals : List ℚ) :
    Metrics × BacktestEngine :=
  let s0 : RunState :=
    { capital := e.initial_capital, position := none, trades := [],
      equity_curve := [] }
  let s1 := processBars e.commission signals data 0 s0
  let s2 := forceClose e.commission data s1
  let e1 := { e with capital := s2.capital, trades := s2.trades,
                     equity_curve := s2.equity_curve }
  (_calculate_metrics e1, e1)

/-! ## Model of `strategy_optimizer.py` grid search -/

/-- `itertools.product(*value_lists)`: leftmost list varies slowest. -/
def cartProd {α : Type} : List (List α) → List (List α)
  | [] => [[]]
  | vs :: rest => vs.flatMap (fun v => (cartProd rest).map (fun c => v :: c))

/-- `dict(zip(param_names, combination))` for every combination of
`itertools.product(*param_values)`, in iteration order. -/
def gridCombos {α : Type} (param_grid : List (String × List α)) :
    List (List (String × α)) :=
  let param_names := param_grid.map Prod.fst
  let param_values := param_grid.map Prod.snd
  (cartProd param_values).map (fun combination => param_names.zip combination)

/-- The loop state of `grid_search`: the accumulated `self.results` plus
`best_params` / `best_results` / `best_metric`, with `best_metric = none`
modelling the initial `float(-inf)`.  (Any rational metric value compares
above `-inf`; a Python float metric equal to `-inf` itself has no `ℚ`
counterpart.) -/
structure SweepState (α M : Type) where
  results : List (List (String × α) × M)
  best_params : Option (List (String × α))
  best_results : Option M
  best_metric : Option ℚ

/-- `results[metric] > best_metric`, with `none` as `float(-inf)`. -/
def gtBest (mv : ℚ) : Option ℚ → Bool
  | none => true
  | some bm => decide (bm < mv)

/-- One iteration of the `for combination in product(*param_values)` loop.
The whole body sits in one `try`, with two distinct failure points:
`run_backtest` raising (`evalFn _ = none`) skips the combination before
anything is recorded, while `results[metric]` raising
(`metric _ = none`, e.g. a missing dict key) happens *after*
`self.results.append(results)`, so the combination stays in the result
list and only best-tracking skips it. -/
def sweepStep {α M : Type} (evalFn : List (String × α) → Option M)
    (metric : M → Option ℚ) (s : SweepState α M)
    (params : List (String × α)) : SweepState α M :=
  match evalFn params with
  | none => s
  | some res =>
    let s1 := { s with results := s.results ++ [(params, res)] }
    match metric res with
    | none => s1
    | some mv =>
      if gtBest mv s1.best_metric then
        { s1 with best_metric := some mv, best_params := some params,
                  best_results := some res }
      else s1

/-- `StrategyOptimizer.grid_search`, abstracted over the injected backtest
evaluation (`run_backtest`, failing = raising) and the `results[metric]`
dict projection (failing = `KeyError`). -/
def grid_search {α M : Type} (evalFn : List (String × α) → Option M)
    (metric : M → Option ℚ) (param_grid : List (String × List α)) :
    SweepState α M :=
  (gridCombos param_grid).foldl (sweepStep evalFn metric) ⟨[], none, none, none⟩

/-- The `results[metric]` dict access on the flat metrics mapping returned
by `_calculate_metrics`, restricted to its float-valued keys: an absent
key — `max_drawdown` in the zero-trade branch, or an unknown metric
name — raises `KeyError`, modelled as `none`. -/
def metricLookup (name : String) (m : Metrics) : Option ℚ :=
  if name = "total_pnl" then some m.total_pnl
  else if name = "total_return" then some m.total_return
  else if name = "win_rate" then some m.win_rate
  else if name = "avg_win" then some m.avg_win
  else if name = "avg_loss" then some m.avg_loss
  else if name = "profit_factor" then some m.profit_factor
  else if name = "final_capital" then some m.final_capital
  else if name = "max_drawdown" then m.max_drawdown
  else none

/-! ## Association-list lemmas -/

theorem alookup_append_self {β : Type} (ps : List (String × β)) (sym : String)
    (b : β) (h : alookup ps sym = none) :
    alookup (ps ++ [(sym, b)]) sym = some b := by
  induction ps with
  | nil => simp [alookup]
  | cons e rest ih =>
    by_cases hs : e.1 = sym
    · simp [alookup, hs] at h
    · simp only [alookup] at h ⊢
      rw [if_neg hs] at h ⊢
      exact ih h

theorem aset_append_self {β : Type} (ps : List (String × β)) (sym : String)
    (b v : β) (h : alookup ps sym = none) :
    aset (ps ++ [(sym, b)]) sym v = ps ++ [(sym, v)] := by
  induction ps with
  | nil => simp [aset]
  | cons e rest ih =>
    obtain ⟨s, val⟩ := e
    simp only [alookup] at h
    by_cases hs : s = sym
    · rw [if_pos hs] at h; cases h
    · rw [if_neg hs] at h
      simp only [List.cons_append, aset, if_neg hs]
      exact congrArg _ (ih h)

/-! ## C7: weighted-average cost of consecutive buys -/

/-- **C7.** For every symbol, a buy into a book with no existing entry
creates the entry at the fill price, and two consecutive buys of `q1@p1`
and `q2@p2` (both positive) leave the entry with quantity `q1 + q2` and
average entry price `(q1*p1 + q2*p2) / (q1 + q2)` — the recurrence of
`PaperTrader._add_to_position`. -/
theorem add_to_position_weighted_average (t : PaperTrader) (sym : String)
    (q1 p1 q2 p2 : ℚ) (hnone : alookup t.positions sym = none)
    (hq1 : 0 < q1) (hq2 : 0 < q2) :
    alookup (_add_to_position t sym q1 p1).positions sym =
      some { symbol := sym, quantity := q1, avg_price := p1,
             current_price := p1 } ∧
    alookup (_add_to_position (_add_to_position t sym q1 p1) sym q2 p2).positions
        sym =
      some { symbol := sym, quantity := q1 + q2,
             avg_price := (q1 * p1 + q2 * p2) / (q1 + q2),
             current_price := p1 } := by
  have h1 : (_add_to_position t sym q1 p1).positions =
      t.positions ++ [(sym, { symbol := sym, quantity := q1, avg_price := p1,
                              current_price := p1 })] := by
    simp [_add_to_position, addToPositionBook, hnone]
  have hl1 : alookup (_add_to_position t sym q1 p1).positions sym =
      some { symbol := sym, quantity := q1, avg_price := p1,
             current_price := p1 } := by
    rw [h1]; exact alookup_append_self _ _ _ hnone
  refine ⟨hl1, ?_⟩
  have hstep : (_add_to_position (_add_to_position t sym q1 p1) sym q2 p2).positions =
      addToPositionBook
        (t.positions ++
          [(sym, ({ symbol := sym, quantity := q1, avg_price := p1,
                    current_price := p1 } : Position))]) sym q2 p2 := by
    rw [← h1]; rfl
  have h2 : (_add_to_position (_add_to_position t sym q1 p1) sym q2 p2).positions =
      t.positions ++
        [(sym, { symbol := sym, quantity := q1 + q2,
                 avg_price := (p1 * q1 + p2 * q2) / (q1 + q2),
                 current_price := p1 })] := by
    rw [hstep]
    simp only [addToPositionBook, alookup_append_self _ _ _ hnone,
               aset_append_self _ _ _ _ hnone]
  rw [h2, alookup_append_self _ _ _ hnone]
  have hnum : p1 * q1 + p2 * q2 = q1 * p1 + q2 * p2 := by ring
  rw [hnum]

/-- Witness for C7 at `q1 = 2, p1 = 10, q2 = 6, p2 = 30`:
the resulting entry holds 8 shares at average price 25. -/
theorem add_to_position_weighted_average_witness :
    alookup (_add_to_position
        (_add_to_position (PaperTrader.init 1000 (1 / 1000)) "AAPL" 2 10)
        "AAPL" 6 30).positions "AAPL" =
      some { symbol := "AAPL", quantity := 8, avg_price := 25,
             current_price := 10 } := by
  have h := (add_to_position_weighted_average (PaperTrader.init 1000 (1 / 1000))
    "AAPL" 2 10 6 30 (by rfl) (by norm_num) (by norm_num)).2
  rw [h]
  norm_num

/-! ## C1: the settlement cases of `execute_order` -/

/-- **C1.** `execute_order` on the pending order at index `i`:
a buy whose total cost `qty*price*(1+commission)` exceeds cash only marks
the order rejected and returns failure; otherwise it debits exactly that
cost, adds to the position book, marks the order filled and appends one
trade record.  A sell with no position, or with held quantity below the
order quantity, only marks the order rejected; otherwise it credits
`qty*price*(1-commission)`, reduces the position book, marks the order
filled and appends one trade record.  On a non-pending order nothing
changes and failure is returned. -/
theorem execute_order_settlement (t : PaperTrader) (i : Nat) (order : Order)
    (price : ℚ) (horder : t.orders[i]? = some order) :
    (order.status ≠ OrderStatus.pending → execute_order t i price = (t, false)) ∧
    (order.status = OrderStatus.pending →
      ((order.side = OrderSide.buy →
        (t.cash < order.quantity * price * (1 + t.commission) →
          execute_order t i price =
            ({ t with orders := t.orders.set i
                        { order with status := OrderStatus.rejected } }, false)) ∧
        (order.quantity * price * (1 + t.commission) ≤ t.cash →
          execute_order t i price =
            ({ t with
                cash := t.cash - order.quantity * price * (1 + t.commission),
                positions := addToPositionBook t.positions order.symbol
                               order.quantity price,
                orders := t.orders.set i (filledWith order price),
                trade_history := t.trade_history ++
                  [recordOf order price
                     (order.quantity * price * t.commission)] }, true))) ∧
       (order.side = OrderSide.sell →
        (alookup t.positions order.symbol = none →
          execute_order t i price =
            ({ t with orders := t.orders.set i
                        { order with status := OrderStatus.rejected } }, false)) ∧
        (∀ position, alookup t.positions order.symbol = some position →
          (position.quantity < order.quantity →
            execute_order t i price =
              ({ t with orders := t.orders.set i
                          { order with status := OrderStatus.rejected } }, false)) ∧
          (order.quantity ≤ position.quantity →
            execute_order t i price =
              ({ t with
                  cash := t.cash + order.quantity * price * (1 - t.commission),
                  positions := removeFromPositionBook t.positions order.symbol
                                 order.quantity,
                  orders := t.orders.set i (filledWith order price),
                  trade_history := t.trade_history ++
                    [recordOf order price
                       (order.quantity * price * t.commission)] }, true)))))) := by
  have hcost : order.quantity * price + order.quantity * price * t.commission =
      order.quantity * price * (1 + t.commission) := by ring
  have hproc : order.quantity * price - order.quantity * price * t.commission =
      order.quantity * price * (1 - t.commission) := by ring
  constructor
  · intro hstat
    simp [execute_order, horder, hstat]
  · intro hstat
    constructor
    · intro hside
      constructor
      · intro hcash
        simp only [execute_order, horder, hstat, hside]
        rw [hcost, if_neg (by simp), if_pos hcash]
        simp [rejectAt, hside]
      · intro hcash
        simp only [execute_order, horder, hstat, hside]
        rw [hcost, if_neg (by simp), if_neg (not_lt.mpr hcash)]
        simp [fillOrder, _add_to_position, hside]
    · intro hside
      constructor
      · intro hpos
        simp only [execute_order, horder, hstat, hside, hpos]
        rw [if_neg (by simp)]
        simp [rejectAt, hside]
      · intro position hpos
        constructor
        · intro hqty
          simp only [execute_order, horder, hstat, hside, hpos]
          rw [if_neg (by simp), if_pos hqty]
          simp [rejectAt, hside]
        · intro hqty
          simp only [execute_order, horder, hstat, hside, hpos]
          rw [hproc, if_neg (by simp), if_neg (not_lt.mpr hqty)]
          simp [fillOrder, _remove_from_position, hside]

/-- Witness for C1: a trader with cash 1000 and a pending market buy of
2 shares; executing at price 10 debits `2*10*1.001 = 20.02` and fills. -/
theorem execute_order_settlement_witness :
    execute_order
        ({ initial_capital := 1000, cash := 1000, commission := 1 / 1000,
           positions := [],
           orders := [{ order_id := 1, symbol := "AAPL", side := OrderSide.buy,
                        order_type := OrderType.market, quantity := 2 }],
           trade_history := [], order_counter := 1 } : PaperTrader) 0 10 =
      (({ initial_capital := 1000, cash := 1000 - 2 * 10 * (1 + 1 / 1000),
          commission := 1 / 1000,
          positions := addToPositionBook [] "AAPL" 2 10,
          orders := [({ order_id := 1, symbol := "AAPL", side := OrderSide.buy,
                        order_type := OrderType.market,
                        quantity := 2 } : Order)].set 0
                      (filledWith { order_id := 1, symbol := "AAPL",
                                    side := OrderSide.buy,
                                    order_type := OrderType.market,
                                    quantity := 2 } 10),
          trade_history := [recordOf { order_id := 1, symbol := "AAPL",
                                       side := OrderSide.buy,
                                       order_type := OrderType.market,
                                       quantity := 2 } 10
                              (2 * 10 * (1 / 1000))],
          order_counter := 1 } : PaperTrader), true) := by
  have h := ((execute_order_settlement
      ({ initial_capital := 1000, cash := 1000, commission := 1 / 1000,
         positions := [],
         orders := [{ order_id := 1, symbol := "AAPL", side := OrderSide.buy,
                      order_type := OrderType.market, quantity := 2 }],
         trade_history := [], order_counter := 1 } : PaperTrader) 0
      { order_id := 1, symbol := "AAPL", side := OrderSide.buy,
        order_type := OrderType.market, quantity := 2 }
      10 (by rfl)).2 (by rfl)).1 (by rfl) |>.2 (by norm_num)
  rw [h]
  norm_num

/-! ## Backtest-loop lemmas -/

theorem getSignal_zero (signals : List ℚ) (hz : ∀ x ∈ signals, x = 0) (i : Nat) :
    getSignal signals i = 0 := by
  unfold getSignal
  cases h : signals[i]? with
  | none => rfl
  | some x => simpa using hz x (List.getElem?_mem h)

theorem processBar_zero_fields (c : ℚ) (s : RunState) (b : Bar) :
    (processBar c s b 0).capital = s.capital ∧
    (processBar c s b 0).position = s.position ∧
    (processBar c s b 0).trades = s.trades := by
  unfold processBar
  cases hp : s.position <;> simp [hp]

theorem processBars_zero_fields (c : ℚ) (signals : List ℚ)
    (hz : ∀ x ∈ signals, x = 0) :
    ∀ (data : List Bar) (i : Nat) (s : RunState),
      (processBars c signals data i s).capital = s.capital ∧
      (processBars c signals data i s).position = s.position ∧
      (processBars c signals data i s).trades = s.trades := by
  intro data
  induction data with
  | nil => intro i s; exact ⟨rfl, rfl, rfl⟩
  | cons b rest ih =>
    intro i s
    rw [processBars, getSignal_zero signals hz i]
    obtain ⟨h1, h2, h3⟩ := ih (i + 1) (processBar c s b 0)
    obtain ⟨g1, g2, g3⟩ := processBar_zero_fields c s b
    exact ⟨h1.trans g1, h2.trans g2, h3.trans g3⟩

/-! ## C6: the all-zero signal run -/

/-- **C6 (amended).** With an all-zero signal sequence no trade is ever
taken: the run produces zero closed trades, final capital (both in the
metrics and in the engine) equal to the initial capital, and all derived
metrics 0 — but the zero-trade metrics dict of `_calculate_metrics`
carries *no* `max_drawdown` entry at all (`none`), rather than the value
`0` asserted by the original claim. -/
theorem run_backtest_all_zero_signals (e : BacktestEngine) (data : List Bar)
    (signals : List ℚ) (hz : ∀ x ∈ signals, x = 0) :
    (run_backtest e data signals).1 =
      { total_trades := 0, winning_trades := 0, losing_trades := 0,
        total_pnl := 0, total_return := 0, win_rate := 0, avg_win := 0,
        avg_loss := 0, profit_factor := 0,
        final_capital := e.initial_capital, max_drawdown := none } ∧
    (run_backtest e data signals).2.trades = [] ∧
    (run_backtest e data signals).2.capital = e.initial_capital := by
  obtain ⟨h1, h2, h3⟩ := processBars_zero_fields e.commission signals hz data 0
    { capital := e.initial_capital, position := none, trades := [],
      equity_curve := [] }
  have hfc : forceClose e.commission data
      (processBars e.commission signals data 0
        { capital := e.initial_capital, position := none, trades := [],
          equity_curve := [] }) =
      processBars e.commission signals data 0
        { capital := e.initial_capital, position := none, trades := [],
          equity_curve := [] } := by
    unfold forceClose
    rw [h2]
  simp only [run_backtest]
  rw [hfc]
  refine ⟨?_, by rw [h3], by rw [h1]⟩
  have htr : ({ e with
      capital := (processBars e.commission signals data 0
        { capital := e.initial_capital, position := none, trades := [],
          equity_curve := [] }).capital,
      trades := (processBars e.commission signals data 0
        { capital := e.initial_capital, position := none, trades := [],
          equity_curve := [] }).trades,
      equity_curve := (processBars e.commission signals data 0
        { capital := e.initial_capital, position := none, trades := [],
          equity_curve := [] }).equity_curve } : BacktestEngine).trades = [] := h3
  rw [_calculate_metrics, if_pos htr]
  simp [h1]

/-- Counterexample to C6 as stated: on a concrete all-zero-signal run the
returned metrics contain no `max_drawdown` value at all — in the Python
source the zero-trade branch of `_calculate_metrics` returns a dict
without that key — so `max_drawdown == 0` fails. -/
theorem run_backtest_all_zero_signals_counterexample :
    (run_backtest (BacktestEngine.mk' 100000 (1 / 1000))
        [⟨0, 100⟩, ⟨1, 110⟩] [0, 0]).1.max_drawdown = none ∧
    (run_backtest (BacktestEngine.mk' 100000 (1 / 1000))
        [⟨0, 100⟩, ⟨1, 110⟩] [0, 0]).1.max_drawdown ≠ some 0 := by
  exact ⟨by rfl, by decide⟩

/-- Witness for C6 on a concrete two-bar series. -/
theorem run_backtest_all_zero_signals_witness :
    (run_backtest (BacktestEngine.mk' 100000 (1 / 1000))
        [⟨0, 100⟩, ⟨1, 110⟩] [0, 0]).1 =
      { total_trades := 0, winning_trades := 0, losing_trades := 0,
        total_pnl := 0, total_return := 0, win_rate := 0, avg_win := 0,
        avg_loss := 0, profit_factor := 0, final_capital := 100000,
        max_drawdown := none } ∧
    (run_backtest (BacktestEngine.mk' 100000 (1 / 1000))
        [⟨0, 100⟩, ⟨1, 110⟩] [0, 0]).2.trades = [] := by
  have h := run_backtest_all_zero_signals (BacktestEngine.mk' 100000 (1 / 1000))
    [⟨0, 100⟩, ⟨1, 110⟩] [0, 0] (by simp)
  exact ⟨h.1, h.2.1⟩

/-! ## C8: signal sequences shorter than the series -/

theorem getSignal_append_replicate (signals : List ℚ) (k i : Nat) :
    getSignal (signals ++ List.replicate k 0) i = getSignal signals i := by
  unfold getSignal
  cases h : signals[i]? with
  | some x =>
    have hlt : i < signals.length := by
      by_contra hge
      rw [List.getElem?_eq_none (by omega)] at h
      cases h
    rw [List.getElem?_append_left hlt, h]
  | none =>
    have hge : signals.length ≤ i := by
      by_contra hlt
      rw [List.getElem?_eq_getElem (by omega)] at h
      cases h
    rw [List.getElem?_append_right hge]
    simp [List.getElem?_replicate]
    split <;> rfl

theorem processBars_append_replicate (c : ℚ) (signals : List ℚ) (k : Nat) :
    ∀ (data : List Bar) (i : Nat) (s : RunState),
      processBars c (signals ++ List.replicate k 0) data i s =
        processBars c signals data i s := by
  intro data
  induction data with
  | nil => intro i s; rfl
  | cons b rest ih =>
    intro i s
    rw [processBars, processBars, getSignal_append_replicate, ih]

/-- **C8 (amended).** A signal sequence strictly shorter than the price
series is *not* rejected: `run_backtest` silently reads every missing
signal as `0` (hold) and runs to completion — the run is equal, state and
metrics, to the run on the zero-padded signal sequence.  No precondition
is checked and simulation state is mutated normally. -/
theorem run_backtest_short_signals (e : BacktestEngine) (data : List Bar)
    (signals : List ℚ) (hshort : signals.length < data.length) :
    run_backtest e data signals =
      run_backtest e data
        (signals ++ List.replicate (data.length - signals.length) 0) := by
  simp only [run_backtest]
  rw [processBars_append_replicate]

/-- Counterexample to C8 as stated: a two-bar run with an *empty* signal
sequence does not fail fast — it runs to completion, mutates the equity
curve (two points are appended) and equals the zero-padded run. -/
theorem run_backtest_short_signals_counterexample :
    (run_backtest (BacktestEngine.mk' 1000 0) [⟨0, 10⟩, ⟨1, 20⟩]
        []).2.equity_curve.length = 2 ∧
    run_backtest (BacktestEngine.mk' 1000 0) [⟨0, 10⟩, ⟨1, 20⟩] [] =
      run_backtest (BacktestEngine.mk' 1000 0) [⟨0, 10⟩, ⟨1, 20⟩] [0, 0] := by
  exact ⟨by rfl, by rfl⟩

/-- Witness for C8 (amended) at a concrete short signal sequence. -/
theorem run_backtest_short_signals_witness :
    run_backtest (BacktestEngine.mk' 1000 0) [⟨0, 10⟩, ⟨1, 20⟩] [1] =
      run_backtest (BacktestEngine.mk' 1000 0) [⟨0, 10⟩, ⟨1, 20⟩]
        ([1] ++ List.replicate 1 0) :=
  run_backtest_short_signals (BacktestEngine.mk' 1000 0) [⟨0, 10⟩, ⟨1, 20⟩] [1]
    (by norm_num)

/-! ## C10: engine reuse cannot leak state between runs -/

/-- **C10.** `run_backtest` resets `capital`, `trades` and `equity_curve`
before processing, so two engines agreeing on the constructor-fixed
`initial_capital` and `commission` — however different their mutable
state left over from earlier runs — return identical results (metrics and
final engine state) on the same data and signal sequence. -/
theorem run_backtest_engine_reset (e1 e2 : BacktestEngine) (data : List Bar)
    (signals : List ℚ) (hic : e1.initial_capital = e2.initial_capital)
    (hcm : e1.commission = e2.commission) :
    run_backtest e1 data signals = run_backtest e2 data signals := by
  obtain ⟨ic1, cm1, cap1, tr1, ec1⟩ := e1
  obtain ⟨ic2, cm2, cap2, tr2, ec2⟩ := e2
  have h1 : ic1 = ic2 := hic
  have h2 : cm1 = cm2 := hcm
  subst h1
  subst h2
  rfl

/-- Witness for C10: a dirty engine (stale capital, trades and equity
curve) and a fresh engine with the same configuration produce the same
run. -/
theorem run_backtest_engine_reset_witness :
    run_backtest
      ({ initial_capital := 1000, commission := 0, capital := 77,
         trades := [{ symbol := "S", entry_time := 0, entry_price := 1,
                      quantity := 1, side := "long" }],
         equity_curve := [{ timestamp := 0, equity := 5, capital := 5 }] } :
        BacktestEngine) [⟨0, 10⟩] [0] =
      run_backtest (BacktestEngine.mk' 1000 0) [⟨0, 10⟩] [0] :=
  run_backtest_engine_reset _ _ _ _ rfl rfl

/-! ## Grid-search lemmas -/

theorem sweepStep_eval_err {α M : Type} (evalFn : List (String × α) → Option M)
    (metric : M → Option ℚ) (s : SweepState α M) (p : List (String × α))
    (h : evalFn p = none) : sweepStep evalFn metric s p = s := by
  simp [sweepStep, h]

theorem sweepStep_metric_err {α M : Type} (evalFn : List (String × α) → Option M)
    (metric : M → Option ℚ) (s : SweepState α M) (p : List (String × α))
    (m : M) (h : evalFn p = some m) (hm : metric m = none) :
    sweepStep evalFn metric s p = { s with results := s.results ++ [(p, m)] } := by
  simp [sweepStep, h, hm]

theorem sweepStep_new_best {α M : Type} (evalFn : List (String × α) → Option M)
    (metric : M → Option ℚ) (s : SweepState α M) (p : List (String × α))
    (m : M) (mv : ℚ) (h : evalFn p = some m) (hm : metric m = some mv)
    (hgt : gtBest mv s.best_metric = true) :
    sweepStep evalFn metric s p =
      { results := s.results ++ [(p, m)], best_params := some p,
        best_results := some m, best_metric := some mv } := by
  simp [sweepStep, h, hm, hgt]

theorem sweepStep_keep_best {α M : Type} (evalFn : List (String × α) → Option M)
    (metric : M → Option ℚ) (s : SweepState α M) (p : List (String × α))
    (m : M) (mv : ℚ) (h : evalFn p = some m) (hm : metric m = some mv)
    (hgt : ¬ gtBest mv s.best_metric = true) :
    sweepStep evalFn metric s p = { s with results := s.results ++ [(p, m)] } := by
  simp only [sweepStep, h, hm]
  rw [if_neg]
  simpa using hgt

theorem sweepStep_results {α M : Type} (evalFn : List (String × α) → Option M)
    (metric : M → Option ℚ) (s : SweepState α M) (p : List (String × α)) :
    (sweepStep evalFn metric s p).results =
      match evalFn p with
      | none => s.results
      | some m => s.results ++ [(p, m)] := by
  cases h : evalFn p with
  | none => rw [sweepStep_eval_err evalFn metric s p h]
  | some m =>
    cases hm : metric m with
    | none => rw [sweepStep_metric_err evalFn metric s p m h hm]
    | some mv =>
      by_cases hgt : gtBest mv s.best_metric = true
      · rw [sweepStep_new_best evalFn metric s p m mv h hm hgt]
      · rw [sweepStep_keep_best evalFn metric s p m mv h hm hgt]

theorem sweep_results {α M : Type} (evalFn : List (String × α) → Option M)
    (metric : M → Option ℚ) :
    ∀ (combos : List (List (String × α))) (s : SweepState α M),
      (combos.foldl (sweepStep evalFn metric) s).results =
        s.results ++
          combos.filterMap (fun p => (evalFn p).map (fun m => (p, m))) := by
  intro combos
  induction combos with
  | nil => intro s; simp
  | cons p rest ih =>
    intro s
    rw [List.foldl_cons, ih, List.filterMap_cons]
    cases h : evalFn p with
    | none => simp [sweepStep_results, h]
    | some m => simp [sweepStep_results, h]

theorem cartProd_length {α : Type} (l : List (List α)) :
    (cartProd l).length = (l.map List.length).prod := by
  induction l with
  | nil => simp [cartProd]
  | cons vs rest ih =>
    simp only [cartProd, List.length_flatMap, List.map_map, List.map_cons,
               List.prod_cons]
    have : (fun v => ((cartProd rest).map (fun c => v :: c)).length) =
        fun _ : α => (cartProd rest).length := by
      funext v; simp
    simp only [Function.comp_def, List.length_map]
    simp [ih, List.map_const', List.sum_replicate, Nat.smul_one_eq_cast]

/-- Splitting an index into `rs ++ [a]`. -/
theorem concat_getElem?_cases {γ : Type} (rs : List γ) (a x : γ) (j : Nat)
    (h : (rs ++ [a])[j]? = some x) :
    (j < rs.length ∧ rs[j]? = some x) ∨ (j = rs.length ∧ x = a) := by
  by_cases hj : j < rs.length
  · left
    rw [List.getElem?_append_left hj] at h
    exact ⟨hj, h⟩
  · right
    by_cases hje : j = rs.length
    · subst hje
      rw [List.getElem?_concat_length] at h
      cases h
      exact ⟨rfl, rfl⟩
    · exfalso
      rw [List.getElem?_eq_none (by simp; omega)] at h
      cases h

/-- The best-tracking invariant maintained by the sweep loop: before any
metric value was read successfully nothing is tracked (and every recorded
result so far had a failing metric lookup); afterwards the tracked best
is a recorded result whose metric is the running maximum over all
*metric-successful* recorded results, attained first at its index —
strict `>` keeps the first-encountered combination on ties, and entries
whose metric lookup failed are never tracked. -/
def BestInv {α M : Type} (metric : M → Option ℚ) (s : SweepState α M) : Prop :=
  (s.best_metric = none →
    s.best_params = none ∧ s.best_results = none ∧
    (∀ (j : Nat) (x : List (String × α) × M),
      s.results[j]? = some x → metric x.2 = none)) ∧
  (∀ bm : ℚ, s.best_metric = some bm →
    ∃ (i : Nat) (x : List (String × α) × M),
      s.results[i]? = some x ∧ metric x.2 = some bm ∧
      s.best_params = some x.1 ∧ s.best_results = some x.2 ∧
      (∀ (j : Nat) (y : List (String × α) × M) (my : ℚ),
        s.results[j]? = some y → metric y.2 = some my → my ≤ bm) ∧
      (∀ j : Nat, j < i → ∀ (y : List (String × α) × M) (my : ℚ),
        s.results[j]? = some y → metric y.2 = some my → my < bm))

theorem sweepStep_bestInv {α M : Type} (evalFn : List (String × α) → Option M)
    (metric : M → Option ℚ) (s : SweepState α M) (p : List (String × α))
    (hs : BestInv metric s) : BestInv metric (sweepStep evalFn metric s p) := by
  obtain ⟨hnone, hsome⟩ := hs
  cases h : evalFn p with
  | none => rw [sweepStep_eval_err evalFn metric s p h]; exact ⟨hnone, hsome⟩
  | some m =>
    cases hm : metric m with
    | none =>
      rw [sweepStep_metric_err evalFn metric s p m h hm]
      constructor
      · intro hbm
        obtain ⟨hp, hr, hall⟩ := hnone hbm
        refine ⟨hp, hr, ?_⟩
        intro j x hjx
        rcases concat_getElem?_cases _ _ _ _ hjx with ⟨_, hjold⟩ | ⟨_, hx⟩
        · exact hall j x hjold
        · rw [hx]; exact hm
      · intro bm hbm
        obtain ⟨i, x, hi, hmx, hp, hr, hall, hpre⟩ := hsome bm hbm
        have hilt : i < s.results.length := by
          by_contra hge
          rw [List.getElem?_eq_none (by omega)] at hi
          cases hi
        refine ⟨i, x, ?_, hmx, hp, hr, ?_, ?_⟩
        · show (s.results ++ [(p, m)])[i]? = some x
          rw [List.getElem?_append_left hilt]; exact hi
        · intro j y my hjy hmy
          rcases concat_getElem?_cases _ _ _ _ hjy with ⟨_, hjold⟩ | ⟨_, hy⟩
          · exact hall j y my hjold hmy
          · rw [hy] at hmy; rw [hm] at hmy; cases hmy
        · intro j hj y my hjy hmy
          rcases concat_getElem?_cases _ _ _ _ hjy with ⟨_, hjold⟩ | ⟨hje, _⟩
          · exact hpre j hj y my hjold hmy
          · omega
    | some mv =>
      by_cases hgt : gtBest mv s.best_metric = true
      · rw [sweepStep_new_best evalFn metric s p m mv h hm hgt]
        constructor
        · intro hbm; cases hbm
        · intro bm hbm
          have hbmv : mv = bm := by cases hbm; rfl
          subst hbmv
          have hold : ∀ (j : Nat) (y : List (String × α) × M) (my : ℚ),
              s.results[j]? = some y → metric y.2 = some my → my < mv := by
            intro j y my hjy hmy
            cases hb : s.best_metric with
            | none =>
              obtain ⟨_, _, hallnone⟩ := hnone hb
              rw [hallnone j y hjy] at hmy; cases hmy
            | some bm0 =>
              obtain ⟨i0, x0, _, _, _, _, hall0, _⟩ := hsome bm0 hb
              have hlt : bm0 < mv := by
                rw [hb] at hgt
                simpa [gtBest] using hgt
              exact lt_of_le_of_lt (hall0 j y my hjy hmy) hlt
          refine ⟨s.results.length, (p, m), ?_, hm, rfl, rfl, ?_, ?_⟩
          · show (s.results ++ [(p, m)])[s.results.length]? = some (p, m)
            exact List.getElem?_concat_length _ _
          · intro j y my hjy hmy
            rcases concat_getElem?_cases _ _ _ _ hjy with ⟨_, hjold⟩ | ⟨_, hy⟩
            · exact le_of_lt (hold j y my hjold hmy)
            · rw [hy] at hmy; rw [hm] at hmy; cases hmy; exact le_refl _
          · intro j hj y my hjy hmy
            rcases concat_getElem?_cases _ _ _ _ hjy with ⟨_, hjold⟩ | ⟨hje, _⟩
            · exact hold j y my hjold hmy
            · omega
      · rw [sweepStep_keep_best evalFn metric s p m mv h hm hgt]
        have hble : ∃ bm0, s.best_metric = some bm0 ∧ mv ≤ bm0 := by
          cases hb : s.best_metric with
          | none => rw [hb] at hgt; simp [gtBest] at hgt
          | some bm0 =>
            rw [hb] at hgt
            refine ⟨bm0, rfl, ?_⟩
            simpa [gtBest, not_lt] using hgt
        obtain ⟨bm0, hb, hle⟩ := hble
        constructor
        · intro hcon
          have hcon' : s.best_metric = none := hcon
          rw [hb] at hcon'; cases hcon'
        · intro bm hbm
          have hbm' : s.best_metric = some bm := hbm
          have hbm0bm : bm0 = bm := by rw [hb] at hbm'; cases hbm'; rfl
          subst hbm0bm
          obtain ⟨i, x, hi, hmx, hp, hr, hall, hpre⟩ := hsome bm0 hbm'
          have hilt : i < s.results.length := by
            by_contra hge
            rw [List.getElem?_eq_none (by omega)] at hi
            cases hi
          refine ⟨i, x, ?_, hmx, hp, hr, ?_, ?_⟩
          · show (s.results ++ [(p, m)])[i]? = some x
            rw [List.getElem?_append_left hilt]; exact hi
          · intro j y my hjy hmy
            rcases concat_getElem?_cases _ _ _ _ hjy with ⟨_, hjold⟩ | ⟨_, hy⟩
            · exact hall j y my hjold hmy
            · rw [hy] at hmy; rw [hm] at hmy; cases hmy; exact hle
          · intro j hj y my hjy hmy
            rcases concat_getElem?_cases _ _ _ _ hjy with ⟨_, hjold⟩ | ⟨hje, _⟩
            · exact hpre j hj y my hjold hmy
            · omega

theorem sweep_bestInv {α M : Type} (evalFn : List (String × α) → Option M)
    (metric : M → Option ℚ) :
    ∀ (combos : List (List (String × α))) (s : SweepState α M),
      BestInv metric s →
      BestInv metric (combos.foldl (sweepStep evalFn metric) s) := by
  intro combos
  induction combos with
  | nil => intro s hs; exact hs
  | cons p rest ih =>
    intro s hs
    exact ih _ (sweepStep_bestInv evalFn metric s p hs)

/-! ## C5: grid search -/

/-- **C5 (amended).** `grid_search` evaluates exactly the Cartesian
product of the per-parameter value lists in declared order (a 2×2 grid
touches exactly `2*2 = 4` combinations); a combination whose backtest run
raises (`evalFn = none`) is excluded from both the result list and
best-tracking; but the source appends to `self.results` *before* reading
`results[metric]`, so a combination whose metric lookup raises
(`metric = none`) stays in the result list and is excluded only from
best-tracking; every recorded result really evaluated to its stored
value; and best-tracking over the metric-successful results is the
running maximum under strict `>` (`BestInv`) — ties keep the
first-encountered combination. -/
theorem grid_search_spec {α M : Type} (evalFn : List (String × α) → Option M)
    (metric : M → Option ℚ) (param_grid : List (String × List α)) :
    (grid_search evalFn metric param_grid).results =
      (gridCombos param_grid).filterMap
        (fun p => (evalFn p).map (fun m => (p, m))) ∧
    (gridCombos param_grid).length =
      (param_grid.map (fun pr => pr.2.length)).prod ∧
    (∀ (p : List (String × α)) (m : M),
      (p, m) ∈ (grid_search evalFn metric param_grid).results →
      evalFn p = some m) ∧
    BestInv metric (grid_search evalFn metric param_grid) := by
  have hres : (grid_search evalFn metric param_grid).results =
      (gridCombos param_grid).filterMap
        (fun p => (evalFn p).map (fun m => (p, m))) := by
    unfold grid_search
    rw [sweep_results]
    rfl
  refine ⟨hres, ?_, ?_, ?_⟩
  · unfold gridCombos
    rw [List.length_map, cartProd_length]
    simp [List.map_map, Function.comp_def]
  · intro p m hmem
    rw [hres] at hmem
    obtain ⟨q, hq, heq⟩ := List.mem_filterMap.mp hmem
    rcases Option.map_eq_some'.mp heq with ⟨m', hm', heq2⟩
    rw [Prod.mk.injEq] at heq2
    obtain ⟨rfl, rfl⟩ := heq2
    exact hm'
  · unfold grid_search
    refine sweep_bestInv _ _ _ _ ⟨fun _ => ⟨rfl, rfl, ?_⟩, fun bm hbm => by cases hbm⟩
    intro j x hjx
    cases hjx

/-- Counterexample to C5 as stated: a sweep over the real backtester with
`metric = "max_drawdown"` and an all-hold (zero-trade) run.  The metric
lookup raises for every combination — the zero-trade metrics dict has no
`max_drawdown` key — yet *both* combinations land in the result list
(appended before the lookup), with best-tracking never updated; so an
error-raising combination is not "excluded from both the result list and
best-tracking". -/
theorem grid_search_metric_error_counterexample :
    (grid_search
      (fun _ => some ((run_backtest (BacktestEngine.mk' 100 0) [⟨0, 10⟩] [0]).1))
      (metricLookup "max_drawdown") [("x", [(1 : ℚ), 2])]).results =
      [([("x", 1)], (run_backtest (BacktestEngine.mk' 100 0) [⟨0, 10⟩] [0]).1),
       ([("x", 2)], (run_backtest (BacktestEngine.mk' 100 0) [⟨0, 10⟩] [0]).1)] ∧
    (grid_search
      (fun _ => some ((run_backtest (BacktestEngine.mk' 100 0) [⟨0, 10⟩] [0]).1))
      (metricLookup "max_drawdown") [("x", [(1 : ℚ), 2])]).best_params = none ∧
    metricLookup "max_drawdown"
      ((run_backtest (BacktestEngine.mk' 100 0) [⟨0, 10⟩] [0]).1) = none := by
  exact ⟨by decide, by decide, by decide⟩

/-- Concrete evaluation used by the C5 witness: a 2×2 grid whose
combination `a=2, b=10` raises during the backtest run, whose first two
combinations tie at metric 5, and whose last returns a result on which
the metric lookup raises. -/
def evalWitness : List (String × ℚ) → Option ℚ := fun p =>
  if p = [("a", 2), ("b", 10)] then none
  else if p = [("a", 2), ("b", 20)] then some 99
  else some 5

/-- The metric projection used by the C5 witness: the lookup raises on
the value 99. -/
def metricWitness : ℚ → Option ℚ := fun v => if v = 99 then none else some v

/-- Witness for C5: 4 combinations in declared order; the run-failure is
absent from the results, the metric-failure is present in the results but
not tracked, and the tie at metric 5 keeps the first-encountered
combination `a=1, b=10`. -/
theorem grid_search_spec_witness :
    (gridCombos [("a", [(1 : ℚ), 2]), ("b", [10, 20])]).length = 4 ∧
    (grid_search evalWitness metricWitness
        [("a", [1, 2]), ("b", [10, 20])]).results =
      [([("a", 1), ("b", 10)], 5), ([("a", 1), ("b", 20)], 5),
       ([("a", 2), ("b", 20)], 99)] ∧
    (grid_search evalWitness metricWitness
        [("a", [1, 2]), ("b", [10, 20])]).best_params =
      some [("a", 1), ("b", 10)] ∧
    (grid_search evalWitness metricWitness
        [("a", [1, 2]), ("b", [10, 20])]).best_metric = some 5 ∧
    evalWitness [("a", 2), ("b", 10)] = none ∧
    metricWitness 99 = none := by
  have h := grid_search_spec evalWitness metricWitness
    [("a", [1, 2]), ("b", [10, 20])]
  refine ⟨?_, ?_, by decide, by decide, by decide, by decide⟩
  · rw [h.2.1]; decide
  · rw [h.1]; decide

/-! ## Bar-loop lemmas for C2 -/

theorem processBar_timestamps (c : ℚ) (s : RunState) (b : Bar) (sig : ℚ) :
    (processBar c s b sig).equity_curve.map EquityPoint.timestamp =
      s.equity_curve.map EquityPoint.timestamp ++ [b.timestamp] := by
  unfold processBar
  cases hp : s.position <;> simp only [hp] <;> split_ifs <;> simp

theorem processBars_timestamps (c : ℚ) (sg : List ℚ) :
    ∀ (data : List Bar) (i : Nat) (s : RunState),
      (processBars c sg data i s).equity_curve.map EquityPoint.timestamp =
        s.equity_curve.map EquityPoint.timestamp ++ data.map Bar.timestamp := by
  intro data
  induction data with
  | nil => intro i s; simp [processBars]
  | cons b rest ih =>
    intro i s
    rw [processBars, ih, processBar_timestamps]
    simp

theorem forceClose_equity (c : ℚ) (data : List Bar) (s : RunState) :
    (forceClose c data s).equity_curve = s.equity_curve := by
  unfold forceClose
  cases hp : s.position with
  | none => rfl
  | some p => cases hl : data.getLast? <;> rfl

/-- Every trade in the list carries exit data. -/
def TradesClosed (l : List BTrade) : Prop :=
  ∀ tr ∈ l, tr.exit_time.isSome ∧ tr.exit_price.isSome

theorem tradesClosed_concat {l : List BTrade} {tr : BTrade}
    (hl : TradesClosed l) (ht : tr.exit_time.isSome ∧ tr.exit_price.isSome) :
    TradesClosed (l ++ [tr]) := by
  intro x hx
  rcases List.mem_append.mp hx with h | h
  · exact hl x h
  · rcases List.mem_singleton.mp h with rfl
    exact ht

theorem processBar_tradesClosed (c : ℚ) (s : RunState) (b : Bar) (sig : ℚ)
    (hs : TradesClosed s.trades) : TradesClosed (processBar c s b sig).trades := by
  unfold processBar
  cases hp : s.position with
  | none => simp only [hp]; split_ifs <;> simpa
  | some p =>
    simp only [hp]
    split_ifs
    · exact tradesClosed_concat hs ⟨rfl, rfl⟩
    · simpa

theorem processBars_tradesClosed (c : ℚ) (sg : List ℚ) :
    ∀ (data : List Bar) (i : Nat) (s : RunState),
      TradesClosed s.trades →
      TradesClosed (processBars c sg data i s).trades := by
  intro data
  induction data with
  | nil => intro i s hs; exact hs
  | cons b rest ih =>
    intro i s hs
    exact ih (i + 1) _ (processBar_tradesClosed c s b _ hs)

theorem forceClose_tradesClosed (c : ℚ) (data : List Bar) (s : RunState)
    (hs : TradesClosed s.trades) : TradesClosed (forceClose c data s).trades := by
  unfold forceClose
  cases hp : s.position with
  | none => exact hs
  | some p =>
    cases hl : data.getLast? with
    | none => exact hs
    | some lastBar => exact tradesClosed_concat hs ⟨rfl, rfl⟩

/-- The entry branch of `processBar`: flat book, positive signal. -/
theorem processBar_entry (c : ℚ) (s : RunState) (b : Bar) (sig : ℚ)
    (hpos : s.position = none) (hsig : 0 < sig) :
    (pyInt (s.capital * (95 / 100) / b.close) * b.close * (1 + c) ≤ s.capital →
      (processBar c s b sig).position =
        some { symbol := "SYMBOL", entry_time := b.timestamp,
               entry_price := b.close,
               quantity := pyInt (s.capital * (95 / 100) / b.close),
               side := "long" } ∧
      (processBar c s b sig).capital =
        s.capital - pyInt (s.capital * (95 / 100) / b.close) * b.close * (1 + c) ∧
      (processBar c s b sig).trades = s.trades) ∧
    (¬ pyInt (s.capital * (95 / 100) / b.close) * b.close * (1 + c) ≤ s.capital →
      (processBar c s b sig).position = none ∧
      (processBar c s b sig).capital = s.capital ∧
      (processBar c s b sig).trades = s.trades) ∧
    (0 ≤ s.capital → 0 < b.close →
      pyInt (s.capital * (95 / 100) / b.close) =
        ⌊s.capital * (95 / 100) / b.close⌋) := by
  refine ⟨?_, ?_, ?_⟩
  · intro hcost
    unfold processBar
    simp [hpos, if_pos hsig, if_pos hcost]
  · intro hcost
    unfold processBar
    simp [hpos, if_pos hsig, if_neg hcost]
  · intro hcap hclose
    unfold pyInt
    rw [if_pos]
    positivity

/-- The exit branch of `processBar`: open position, negative signal. -/
theorem processBar_exit (c : ℚ) (s : RunState) (b : Bar) (sig : ℚ)
    (p : BTrade) (hpos : s.position = some p) (hsig : sig < 0) :
    (processBar c s b sig).position = none ∧
    (processBar c s b sig).capital =
      s.capital + p.quantity * b.close * (1 - c) ∧
    (processBar c s b sig).trades =
      s.trades ++ [{ p with exit_time := some b.timestamp,
                            exit_price := some b.close }] := by
  unfold processBar
  simp [hpos, if_pos hsig]

/-- The hold case on an open position (signal not negative). -/
theorem processBar_hold (c : ℚ) (s : RunState) (b : Bar) (sig : ℚ)
    (p : BTrade) (hpos : s.position = some p) (hsig : ¬ sig < 0) :
    (processBar c s b sig).position = some p ∧
    (processBar c s b sig).capital = s.capital ∧
    (processBar c s b sig).trades = s.trades := by
  unfold processBar
  simp [hpos, if_neg hsig]

theorem processBars_append (c : ℚ) (sg : List ℚ) :
    ∀ (xs ys : List Bar) (i : Nat) (s : RunState),
      processBars c sg (xs ++ ys) i s =
        processBars c sg ys (i + xs.length) (processBars c sg xs i s) := by
  intro xs
  induction xs with
  | nil => intro ys i s; simp [processBars]
  | cons b rest ih =>
    intro ys i s
    rw [List.cons_append, processBars, ih]
    have hidx : i + 1 + rest.length = i + (b :: rest).length := by
      simp; omega
    rw [hidx]
    rfl

/-! ## C2: the backtest loop -/

/-- **C2.** For an equal-length signal sequence, `run_backtest` processes
bars in input order, appending exactly one equity point per bar (their
timestamps are the bars' timestamps in order); on a flat book a positive
signal sizes the entry as `int(cash*0.95/close)` shares — `floor` for the
non-negative capital and positive close of every real run — and opens the
position debiting `qty*close*(1+commission)` exactly when that cost is at
most cash; on an open position a negative signal closes at the bar's
close, crediting `qty*close*(1-commission)` and appending the closed
trade; after the final bar any surviving position is force-closed at the
last bar's close, so no open position remains, every recorded trade is
closed, and if a position was open going into the final bar the last
trade's exit time is the last bar's timestamp. -/
theorem run_backtest_loop_spec (e : BacktestEngine) (data : List Bar)
    (signals : List ℚ) (hlen : signals.length = data.length) :
    ((run_backtest e data signals).2.equity_curve.map EquityPoint.timestamp =
        data.map Bar.timestamp ∧
      (run_backtest e data signals).2.equity_curve.length = data.length) ∧
    (∀ (s : RunState) (b : Bar) (sig : ℚ), s.position = none → 0 < sig →
      (pyInt (s.capital * (95 / 100) / b.close) * b.close * (1 + e.commission) ≤
          s.capital →
        (processBar e.commission s b sig).position =
          some { symbol := "SYMBOL", entry_time := b.timestamp,
                 entry_price := b.close,
                 quantity := pyInt (s.capital * (95 / 100) / b.close),
                 side := "long" } ∧
        (processBar e.commission s b sig).capital =
          s.capital -
            pyInt (s.capital * (95 / 100) / b.close) * b.close *
              (1 + e.commission) ∧
        (processBar e.commission s b sig).trades = s.trades) ∧
      (¬ pyInt (s.capital * (95 / 100) / b.close) * b.close *
            (1 + e.commission) ≤ s.capital →
        (processBar e.commission s b sig).position = none ∧
        (processBar e.commission s b sig).capital = s.capital ∧
        (processBar e.commission s b sig).trades = s.trades) ∧
      (0 ≤ s.capital → 0 < b.close →
        pyInt (s.capital * (95 / 100) / b.close) =
          ⌊s.capital * (95 / 100) / b.close⌋)) ∧
    (∀ (s : RunState) (b : Bar) (sig : ℚ) (p : BTrade),
      s.position = some p → sig < 0 →
      (processBar e.commission s b sig).position = none ∧
      (processBar e.commission s b sig).capital =
        s.capital + p.quantity * b.close * (1 - e.commission) ∧
      (processBar e.commission s b sig).trades =
        s.trades ++ [{ p with exit_time := some b.timestamp,
                              exit_price := some b.close }]) ∧
    ((forceClose e.commission data
        (processBars e.commission signals data 0
          { capital := e.initial_capital, position := none, trades := [],
            equity_curve := [] })).position = none) ∧
    (∀ tr ∈ (run_backtest e data signals).2.trades,
      tr.exit_time.isSome ∧ tr.exit_price.isSome) ∧
    (∀ (init : List Bar) (lastBar : Bar), data = init ++ [lastBar] →
      (processBars e.commission signals init 0
        { capital := e.initial_capital, position := none, trades := [],
          equity_curve := [] }).position.isSome →
      ∃ tr, (run_backtest e data signals).2.trades.getLast? = some tr ∧
        tr.exit_time = some lastBar.timestamp) := by
  refine ⟨⟨?_, ?_⟩, ?_, ?_, ?_, ?_, ?_⟩
  · simp only [run_backtest]
    rw [forceClose_equity, processBars_timestamps]
    simp
  · have h : (run_backtest e data signals).2.equity_curve.map
        EquityPoint.timestamp = data.map Bar.timestamp := by
      simp only [run_backtest]
      rw [forceClose_equity, processBars_timestamps]
      simp
    have := congrArg List.length h
    simpa using this
  · intro s b sig h1 h2
    exact processBar_entry e.commission s b sig h1 h2
  · intro s b sig p h1 h2
    exact processBar_exit e.commission s b sig p h1 h2
  · rcases List.eq_nil_or_concat data with rfl | ⟨init, b, rfl⟩
    · rfl
    · simp only [List.concat_eq_append]
      unfold forceClose
      cases hp : (processBars e.commission signals (init ++ [b]) 0
          { capital := e.initial_capital, position := none, trades := [],
            equity_curve := [] }).position with
      | none => exact hp
      | some p =>
        rw [List.getLast?_concat]
  · simp only [run_backtest]
    exact forceClose_tradesClosed _ _ _
      (processBars_tradesClosed _ _ data 0 _ (by intro tr htr; cases htr))
  · intro init lastBar hdata hpos
    subst hdata
    obtain ⟨p, hp⟩ := Option.isSome_iff_exists.mp hpos
    have hsplit : processBars e.commission signals (init ++ [lastBar]) 0
        { capital := e.initial_capital, position := none, trades := [],
          equity_curve := [] } =
        processBar e.commission
          (processBars e.commission signals init 0
            { capital := e.initial_capital, position := none, trades := [],
              equity_curve := [] })
          lastBar (getSignal signals (0 + init.length)) := by
      rw [processBars_append]
      rfl
    simp only [run_backtest]
    rw [hsplit]
    by_cases hsig : getSignal signals (0 + init.length) < 0
    · obtain ⟨h1, h2, h3⟩ := processBar_exit e.commission _ lastBar _ p hp hsig
      have hfc : forceClose e.commission (init ++ [lastBar])
          (processBar e.commission
            (processBars e.commission signals init 0
              { capital := e.initial_capital, position := none, trades := [],
                equity_curve := [] })
            lastBar (getSignal signals (0 + init.length))) =
          processBar e.commission
            (processBars e.commission signals init 0
              { capital := e.initial_capital, position := none, trades := [],
                equity_curve := [] })
            lastBar (getSignal signals (0 + init.length)) := by
        unfold forceClose
        rw [h1]
      rw [hfc]
      refine ⟨{ p with exit_time := some lastBar.timestamp,
                       exit_price := some lastBar.close }, ?_, rfl⟩
      rw [h3, List.getLast?_concat]
    · obtain ⟨h1, h2, h3⟩ := processBar_hold e.commission _ lastBar _ p hp hsig
      have hfc : (forceClose e.commission (init ++ [lastBar])
          (processBar e.commission
            (processBars e.commission signals init 0
              { capital := e.initial_capital, position := none, trades := [],
                equity_curve := [] })
            lastBar (getSignal signals (0 + init.length)))).trades =
          (processBar e.commission
            (processBars e.commission signals init 0
              { capital := e.initial_capital, position := none, trades := [],
                equity_curve := [] })
            lastBar (getSignal signals (0 + init.length))).trades ++
            [{ p with exit_time := some lastBar.timestamp,
                      exit_price := some lastBar.close }] := by
        unfold forceClose
        rw [h1, List.getLast?_concat]
      refine ⟨{ p with exit_time := some lastBar.timestamp,
                       exit_price := some lastBar.close }, ?_, rfl⟩
      rw [hfc, List.getLast?_concat]

/-- Witness for C2: capital 1000, zero commission, closes `[10, 20]`,
signals `[1, 0]` — the first bar opens `int(1000*0.95/10) = 95` shares,
the position survives the final bar and is force-closed there, so the
last trade exits at the final bar's timestamp; one equity point per bar. -/
theorem run_backtest_loop_spec_witness :
    (run_backtest (BacktestEngine.mk' 1000 0) [⟨0, 10⟩, ⟨1, 20⟩]
        [1, 0]).2.equity_curve.map EquityPoint.timestamp = [0, 1] ∧
    (processBar 0 { capital := 1000, position := none, trades := [],
                    equity_curve := [] } ⟨0, 10⟩ 1).position =
      some { symbol := "SYMBOL", entry_time := 0, entry_price := 10,
             quantity := 95, side := "long" } ∧
    (∃ tr, (run_backtest (BacktestEngine.mk' 1000 0) [⟨0, 10⟩, ⟨1, 20⟩]
        [1, 0]).2.trades.getLast? = some tr ∧ tr.exit_time = some 1) := by
  obtain ⟨⟨hts, _⟩, hentry, _, _, _, hlast⟩ :=
    run_backtest_loop_spec (BacktestEngine.mk' 1000 0) [⟨0, 10⟩, ⟨1, 20⟩]
      [1, 0] (by rfl)
  have hq : pyInt ((1000 : ℚ) * (95 / 100) / 10) = 95 := by
    norm_num [pyInt]
  have hcost : pyInt ((1000 : ℚ) * (95 / 100) / 10) * 10 *
      (1 + (BacktestEngine.mk' 1000 0).commission) ≤ 1000 := by
    rw [hq]
    norm_num [BacktestEngine.mk']
  obtain ⟨hp1, hp2, hp3⟩ :=
    (hentry { capital := 1000, position := none, trades := [],
              equity_curve := [] } ⟨0, 10⟩ 1 rfl (by norm_num)).1 hcost
  refine ⟨?_, ?_, ?_⟩
  · rw [hts]; rfl
  · have h2 : (processBar 0 { capital := 1000, position := none, trades := [],
                              equity_curve := [] } ⟨0, 10⟩ 1).position =
        some { symbol := "SYMBOL", entry_time := 0, entry_price := 10,
               quantity := pyInt ((1000 : ℚ) * (95 / 100) / 10),
               side := "long" } := hp1
    rw [h2, hq]
  · apply hlast [⟨0, 10⟩] ⟨1, 20⟩ rfl
    have hstep : (processBars (BacktestEngine.mk' 1000 0).commission [1, 0]
        [⟨0, 10⟩] 0
        { capital := (BacktestEngine.mk' 1000 0).initial_capital,
          position := none, trades := [], equity_curve := [] }).position =
        some { symbol := "SYMBOL", entry_time := 0, entry_price := 10,
               quantity := pyInt ((1000 : ℚ) * (95 / 100) / 10),
               side := "long" } := hp1
    rw [hstep]
    rfl

/-! ## Tick-handler lemmas for C3 -/

/-- A trader holding exactly one order. -/
def oneOrderTrader (ic cash comm : ℚ) (poss : List (String × Position))
    (hist : List TradeRecord) (n : Nat) (o : Order) : PaperTrader :=
  { initial_capital := ic, cash := cash, commission := comm,
    positions := poss, orders := [o], trade_history := hist,
    order_counter := n }

/-- `execute_order` leaves `orders` unchanged or writes only index `i`. -/
theorem execute_order_orders_shape (t : PaperTrader) (i : Nat) (p : ℚ) :
    (execute_order t i p).1.orders = t.orders ∨
    ∃ o', (execute_order t i p).1.orders = t.orders.set i o' := by
  unfold execute_order
  dsimp only
  split
  · left; rfl
  · split
    · left; rfl
    · split
      · split
        · right; exact ⟨_, rfl⟩
        · right; exact ⟨_, rfl⟩
      · split
        · right; exact ⟨_, rfl⟩
        · split
          · right; exact ⟨_, rfl⟩
          · right; exact ⟨_, rfl⟩

/-- `process_limit_order` leaves `orders` unchanged or writes only index `i`. -/
theorem process_limit_order_orders_shape (t : PaperTrader) (i : Nat) (p : ℚ) :
    (process_limit_order t i p).1.orders = t.orders ∨
    ∃ o', (process_limit_order t i p).1.orders = t.orders.set i o' := by
  unfold process_limit_order
  split
  · left; rfl
  · split
    · left; rfl
    · split
      · exact execute_order_orders_shape t i _
      · split
        · exact execute_order_orders_shape t i _
        · left; rfl

/-- `processTickOrder` leaves `orders` unchanged or writes only index `i`. -/
theorem processTickOrder_orders_shape (t : PaperTrader) (i : Nat)
    (prices : List (String × ℚ)) :
    (processTickOrder t i prices).orders = t.orders ∨
    ∃ o', (processTickOrder t i prices).orders = t.orders.set i o' := by
  unfold processTickOrder
  split
  · left; rfl
  · split
    · left; rfl
    · split
      · left; rfl
      · split
        · exact execute_order_orders_shape t i _
        · exact process_limit_order_orders_shape t i _
        · left; rfl
        · left; rfl

/-- A pending stop or stop-limit order is untouched by one loop
iteration, whichever index is processed. -/
theorem processTickOrder_stop_preserve (t : PaperTrader) (i : Nat)
    (prices : List (String × ℚ)) (o : Order) (ho : t.orders[i]? = some o)
    (hstop : o.order_type = OrderType.stop ∨ o.order_type = OrderType.stop_limit)
    (hpend : o.status = OrderStatus.pending) (j : Nat) :
    (processTickOrder t j prices).orders[i]? = some o := by
  by_cases hj : j = i
  · subst hj
    unfold processTickOrder
    rw [ho]
    simp only [hpend]
    have hns : ¬ (OrderStatus.pending ≠ OrderStatus.pending) := by simp
    rw [if_neg hns]
    cases halk : alookup prices o.symbol with
    | none => exact ho
    | some cp =>
      rcases hstop with ht | ht <;> rw [ht] <;> exact ho
  · rcases processTickOrder_orders_shape t j prices with h | ⟨o', h⟩
    · rw [h]; exact ho
    · rw [h, List.getElem?_set_ne (by omega)]; exact ho

theorem tickLoop_stop_preserve (prices : List (String × ℚ)) (i : Nat)
    (o : Order)
    (hstop : o.order_type = OrderType.stop ∨ o.order_type = OrderType.stop_limit)
    (hpend : o.status = OrderStatus.pending) :
    ∀ (fuel j : Nat) (t : PaperTrader), t.orders[i]? = some o →
      (tickLoop prices fuel j t).orders[i]? = some o := by
  intro fuel
  induction fuel with
  | zero => intro j t ho; exact ho
  | succ fuel ih =>
    intro j t ho
    rw [tickLoop]
    exact ih (j + 1) _ (processTickOrder_stop_preserve t i prices o ho hstop hpend j)

theorem update_market_data_stop_preserve (t : PaperTrader) (i : Nat) (o : Order)
    (prices : List (String × ℚ)) (ho : t.orders[i]? = some o)
    (hstop : o.order_type = OrderType.stop ∨ o.order_type = OrderType.stop_limit)
    (hpend : o.status = OrderStatus.pending) :
    (update_market_data t prices).orders[i]? = some o := by
  unfold update_market_data
  exact tickLoop_stop_preserve prices i o hstop hpend _ 0 _ ho

/-- A pending order settled by `execute_order` at price `p` ends filled
at `p` or rejected, in place. -/
theorem execute_order_pending_at (t : PaperTrader) (i : Nat) (p : ℚ)
    (o : Order) (ho : t.orders[i]? = some o)
    (hpend : o.status = OrderStatus.pending) :
    ((execute_order t i p).1.orders)[i]? = some (filledWith o p) ∨
    ((execute_order t i p).1.orders)[i]? =
      some { o with status := OrderStatus.rejected } := by
  have hlt : i < t.orders.length := by
    by_contra hge
    rw [List.getElem?_eq_none (by omega)] at ho
    cases ho
  unfold execute_order
  rw [ho]
  dsimp only
  rw [if_neg (by simp [hpend])]
  cases hside : o.side with
  | buy =>
    dsimp only
    by_cases hc : o.quantity * p + o.quantity * p * t.commission > t.cash
    · rw [if_pos hc]
      right
      show (t.orders.set i { o with status := OrderStatus.rejected })[i]? = _
      rw [List.getElem?_set_eq hlt, hside]
    · rw [if_neg hc]
      left
      show (t.orders.set i (filledWith o p))[i]? = _
      exact List.getElem?_set_eq hlt
  | sell =>
    dsimp only
    cases hpsl : alookup t.positions o.symbol with
    | none =>
      right
      show (t.orders.set i { o with status := OrderStatus.rejected })[i]? = _
      rw [List.getElem?_set_eq hlt, hside]
    | some position =>
      dsimp only
      by_cases hq : o.quantity > position.quantity
      · rw [if_pos hq]
        right
        show (t.orders.set i { o with status := OrderStatus.rejected })[i]? = _
        rw [List.getElem?_set_eq hlt, hside]
      · rw [if_neg hq]
        left
        show (t.orders.set i (filledWith o p))[i]? = _
        exact List.getElem?_set_eq hlt

/-- Reduction of `process_limit_order` on the order at index `i`. -/
theorem process_limit_order_at (t : PaperTrader) (i : Nat) (o : Order)
    (lp tp : ℚ) (ho : t.orders[i]? = some o) (hprice : o.price = some lp) :
    process_limit_order t i tp =
      if o.side = OrderSide.buy ∧ tp ≤ lp then execute_order t i lp
      else if o.side = OrderSide.sell ∧ tp ≥ lp then execute_order t i lp
      else (t, false) := by
  unfold process_limit_order
  rw [ho]
  dsimp only
  rw [hprice]

/-- Dispatch of one tick-loop iteration on the pending order at index `i`
whose symbol carries price `tp` in the map. -/
theorem processTickOrder_at (t : PaperTrader) (i : Nat)
    (prices : List (String × ℚ)) (o : Order) (tp : ℚ)
    (ho : t.orders[i]? = some o) (hpend : o.status = OrderStatus.pending)
    (halk : alookup prices o.symbol = some tp) :
    processTickOrder t i prices =
      match o.order_type with
      | OrderType.market => (execute_order t i tp).1
      | OrderType.limit => (process_limit_order t i tp).1
      | OrderType.stop => t
      | OrderType.stop_limit => t := by
  unfold processTickOrder
  rw [ho]
  dsimp only
  rw [if_neg (by simp [hpend]), halk]
  cases o.order_type <;> rfl

/-- An order whose symbol is not in the tick map is skipped. -/
theorem processTickOrder_no_price (t : PaperTrader) (i : Nat)
    (prices : List (String × ℚ)) (o : Order)
    (ho : t.orders[i]? = some o) (hpend : o.status = OrderStatus.pending)
    (halk : alookup prices o.symbol = none) :
    processTickOrder t i prices = t := by
  unfold processTickOrder
  rw [ho]
  dsimp only
  rw [if_neg (by simp [hpend]), halk]

/-- Iterations at indices above `i` never touch the order at `i`. -/
theorem tickLoop_preserve_above (prices : List (String × ℚ)) (i : Nat) :
    ∀ (fuel j : Nat) (t : PaperTrader), i < j →
      (tickLoop prices fuel j t).orders[i]? = t.orders[i]? := by
  intro fuel
  induction fuel with
  | zero => intro j t _; rfl
  | succ fuel ih =>
    intro j t hij
    rw [tickLoop]
    have hstep : (processTickOrder t j prices).orders[i]? = t.orders[i]? := by
      rcases processTickOrder_orders_shape t j prices with hsh | ⟨o', hsh⟩
      · rw [hsh]
      · rw [hsh, List.getElem?_set_ne (by omega)]
    rw [ih (j + 1) _ (by omega), hstep]

/-- The order at index `i` is processed exactly once by the tick loop: as
long as the loop still has to reach `i`, the order is untouched; when it
does, `Q` describes the outcome at index `i`; afterwards that slot is
never written again. -/
theorem tickLoop_process_at (prices : List (String × ℚ)) (i : Nat) (o : Order)
    (Q : Option Order → Prop)
    (hstep : ∀ t' : PaperTrader, t'.orders[i]? = some o →
      Q ((processTickOrder t' i prices).orders[i]?)) :
    ∀ (fuel start : Nat) (t : PaperTrader), t.orders[i]? = some o →
      start ≤ i → i < start + fuel →
      Q ((tickLoop prices fuel start t).orders[i]?) := by
  intro fuel
  induction fuel with
  | zero => intro start t _ hle hlt; omega
  | succ fuel ih =>
    intro start t ho hle hlt
    rw [tickLoop]
    by_cases hsi : start = i
    · subst hsi
      rw [tickLoop_preserve_above prices start fuel (start + 1) _ (by omega)]
      exact hstep t ho
    · have hpres : (processTickOrder t start prices).orders[i]? = some o := by
        rcases processTickOrder_orders_shape t start prices with hsh | ⟨o', hsh⟩
        · rw [hsh]; exact ho
        · rw [hsh, List.getElem?_set_ne (by omega)]; exact ho
      exact ih (start + 1) _ hpres (by omega) (by omega)

/-- `update_market_data` processes the pending order at index `i` exactly
once, at its own index, in the state reached after marking positions and
processing the earlier orders. -/
theorem update_market_data_process_at (t : PaperTrader)
    (prices : List (String × ℚ)) (i : Nat) (o : Order)
    (Q : Option Order → Prop) (ho : t.orders[i]? = some o)
    (hstep : ∀ t' : PaperTrader, t'.orders[i]? = some o →
      Q ((processTickOrder t' i prices).orders[i]?)) :
    Q ((update_market_data t prices).orders[i]?) := by
  have hlt : i < t.orders.length := by
    by_contra hge
    rw [List.getElem?_eq_none (by omega)] at ho
    cases ho
  unfold update_market_data
  exact tickLoop_process_at prices i o Q hstep t.orders.length 0 _ ho
    (by omega) (by omega)

/-! ## C3: tick-driven order matching -/

/-- **C3.** For every trader, every symbol-to-price tick map and every
still-pending order in the book (at any index `i`) whose symbol carries
price `tp` in the map: a market order is executed immediately at the tick
price — it ends filled at `tp` or rejected (the C1 settlement outcomes);
a limit buy is executed at the *limit* price exactly when `tp ≤ limit`
(ending filled at the limit price or rejected) and is left pending and
untouched when `limit < tp`; a limit sell is executed at the limit price
exactly when `tp ≥ limit` and left pending otherwise; an order whose
symbol is absent from the map is untouched; and a stop or stop-limit
order is never matched by the tick handler — after any sequence of ticks
it is still in place, pending and unchanged. -/
theorem tick_matching_spec :
    (∀ (t : PaperTrader) (prices : List (String × ℚ)) (i : Nat) (o : Order)
        (tp : ℚ),
      t.orders[i]? = some o → o.status = OrderStatus.pending →
      alookup prices o.symbol = some tp →
      (o.order_type = OrderType.market →
        (update_market_data t prices).orders[i]? = some (filledWith o tp) ∨
        (update_market_data t prices).orders[i]? =
          some { o with status := OrderStatus.rejected }) ∧
      (∀ lp : ℚ, o.order_type = OrderType.limit → o.price = some lp →
        (o.side = OrderSide.buy → tp ≤ lp →
          (update_market_data t prices).orders[i]? = some (filledWith o lp) ∨
          (update_market_data t prices).orders[i]? =
            some { o with status := OrderStatus.rejected }) ∧
        (o.side = OrderSide.buy → lp < tp →
          (update_market_data t prices).orders[i]? = some o) ∧
        (o.side = OrderSide.sell → lp ≤ tp →
          (update_market_data t prices).orders[i]? = some (filledWith o lp) ∨
          (update_market_data t prices).orders[i]? =
            some { o with status := OrderStatus.rejected }) ∧
        (o.side = OrderSide.sell → tp < lp →
          (update_market_data t prices).orders[i]? = some o))) ∧
    (∀ (t : PaperTrader) (prices : List (String × ℚ)) (i : Nat) (o : Order),
      t.orders[i]? = some o → o.status = OrderStatus.pending →
      alookup prices o.symbol = none →
      (update_market_data t prices).orders[i]? = some o) ∧
    (∀ (t : PaperTrader) (i : Nat) (o : Order)
        (ticks : List (List (String × ℚ))),
      t.orders[i]? = some o → o.status = OrderStatus.pending →
      (o.order_type = OrderType.stop ∨
        o.order_type = OrderType.stop_limit) →
      ((ticks.foldl update_market_data t).orders)[i]? = some o) := by
  refine ⟨?_, ?_, ?_⟩
  · intro t prices i o tp ho hpend halk
    constructor
    · intro htype
      exact update_market_data_process_at t prices i o
        (fun r => r = some (filledWith o tp) ∨
          r = some { o with status := OrderStatus.rejected }) ho
        (fun t' ho' => by
          have hred : processTickOrder t' i prices =
              (execute_order t' i tp).1 := by
            rw [processTickOrder_at t' i prices o tp ho' hpend halk, htype]
          rw [hred]
          exact execute_order_pending_at t' i tp o ho' hpend)
    · intro lp htype hprice
      refine ⟨?_, ?_, ?_, ?_⟩
      · intro hside hle
        exact update_market_data_process_at t prices i o
          (fun r => r = some (filledWith o lp) ∨
            r = some { o with status := OrderStatus.rejected }) ho
          (fun t' ho' => by
            have hred : processTickOrder t' i prices =
                (execute_order t' i lp).1 := by
              rw [processTickOrder_at t' i prices o tp ho' hpend halk, htype,
                  process_limit_order_at t' i o lp tp ho' hprice,
                  if_pos ⟨hside, hle⟩]
            rw [hred]
            exact execute_order_pending_at t' i lp o ho' hpend)
      · intro hside hgt
        exact update_market_data_process_at t prices i o
          (fun r => r = some o) ho
          (fun t' ho' => by
            have hred : processTickOrder t' i prices = t' := by
              rw [processTickOrder_at t' i prices o tp ho' hpend halk, htype,
                  process_limit_order_at t' i o lp tp ho' hprice,
                  if_neg (by simp [hside, not_le]; exact hgt),
                  if_neg (by simp [hside])]
            rw [hred]
            exact ho')
      · intro hside hle
        exact update_market_data_process_at t prices i o
          (fun r => r = some (filledWith o lp) ∨
            r = some { o with status := OrderStatus.rejected }) ho
          (fun t' ho' => by
            have hred : processTickOrder t' i prices =
                (execute_order t' i lp).1 := by
              rw [processTickOrder_at t' i prices o tp ho' hpend halk, htype,
                  process_limit_order_at t' i o lp tp ho' hprice,
                  if_neg (by simp [hside]), if_pos ⟨hside, hle⟩]
            rw [hred]
            exact execute_order_pending_at t' i lp o ho' hpend)
      · intro hside hlt
        exact update_market_data_process_at t prices i o
          (fun r => r = some o) ho
          (fun t' ho' => by
            have hred : processTickOrder t' i prices = t' := by
              rw [processTickOrder_at t' i prices o tp ho' hpend halk, htype,
                  process_limit_order_at t' i o lp tp ho' hprice,
                  if_neg (by simp [hside]),
                  if_neg (by simp [hside, ge_iff_le, not_le]; exact hlt)]
            rw [hred]
            exact ho')
  · intro t prices i o ho hpend halk
    exact update_market_data_process_at t prices i o (fun r => r = some o) ho
      (fun t' ho' => by
        rw [processTickOrder_no_price t' i prices o ho' hpend halk]
        exact ho')
  · intro t i o ticks
    induction ticks generalizing t with
    | nil => intro ho _ _; exact ho
    | cons pr rest ih =>
      intro ho hpend hstop
      rw [List.foldl_cons]
      exact ih _ (update_market_data_stop_preserve t i o pr ho hstop hpend)
        hpend hstop

/-- A pending limit buy at limit price 100 (C3 witness data). -/
def limitBuyOrder : Order :=
  { order_id := 1, symbol := "AAPL", side := OrderSide.buy,
    order_type := OrderType.limit, quantity := 2, price := some 100 }

/-- A pending stop order (C3 witness data). -/
def stopOrder : Order :=
  { order_id := 2, symbol := "AAPL", side := OrderSide.buy,
    order_type := OrderType.stop, quantity := 2, stop_price := some 100 }

/-- A book holding a market order on MSFT and the AAPL limit buy
(C3 witness data). -/
def twoOrderTrader : PaperTrader :=
  { initial_capital := 1000, cash := 1000, commission := 0, positions := [],
    orders := [{ order_id := 1, symbol := "MSFT", side := OrderSide.buy,
                 order_type := OrderType.market, quantity := 1 },
               limitBuyOrder],
    trade_history := [], order_counter := 2 }

/-- Witness for C3, in a two-order book under a two-symbol tick map: the
AAPL limit buy at 100 is untouched by an AAPL tick at 101, is settled at
the limit price 100 on an AAPL tick at 99, and a stop order is still
pending and unchanged after a sequence of two ticks. -/
theorem tick_matching_spec_witness :
    (update_market_data twoOrderTrader
      [("MSFT", 200), ("AAPL", 101)]).orders[1]? = some limitBuyOrder ∧
    ((update_market_data twoOrderTrader [("AAPL", 99)]).orders[1]? =
        some (filledWith limitBuyOrder 100) ∨
      (update_market_data twoOrderTrader [("AAPL", 99)]).orders[1]? =
        some { limitBuyOrder with status := OrderStatus.rejected }) ∧
    (([[("AAPL", 99)], [("AAPL", 101)]].foldl update_market_data
      { initial_capital := 1000, cash := 1000, commission := 0,
        positions := [], orders := [stopOrder], trade_history := [],
        order_counter := 1 }).orders)[0]? = some stopOrder := by
  refine ⟨?_, ?_, ?_⟩
  · exact ((tick_matching_spec.1 twoOrderTrader [("MSFT", 200), ("AAPL", 101)]
      1 limitBuyOrder 101 (by decide) rfl (by decide)).2 100 rfl rfl).2.1 rfl
      (by norm_num)
  · exact ((tick_matching_spec.1 twoOrderTrader [("AAPL", 99)]
      1 limitBuyOrder 99 (by decide) rfl (by decide)).2 100 rfl rfl).1 rfl
      (by norm_num)
  · exact tick_matching_spec.2.2
      { initial_capital := 1000, cash := 1000, commission := 0,
        positions := [], orders := [stopOrder], trade_history := [],
        order_counter := 1 } 0 stopOrder
      [[("AAPL", 99)], [("AAPL", 101)]] rfl rfl (Or.inl rfl)

/-! ## Reachable-state machinery for C4 and C9 -/

theorem alookup_mem {β : Type} :
    ∀ (ps : List (String × β)) (sym : String) (b : β),
      alookup ps sym = some b → (sym, b) ∈ ps := by
  intro ps
  induction ps with
  | nil => intro sym b h; cases h
  | cons e rest ih =>
    obtain ⟨s, v⟩ := e
    intro sym b h
    unfold alookup at h
    by_cases hs : s = sym
    · rw [if_pos hs] at h
      cases h
      subst hs
      exact List.mem_cons_self _ _
    · rw [if_neg hs] at h
      exact List.mem_cons_of_mem _ (ih sym b h)

theorem aset_mem {β : Type} :
    ∀ (ps : List (String × β)) (sym : String) (v : β) (e : String × β),
      e ∈ aset ps sym v → e ∈ ps ∨ e = (sym, v) := by
  intro ps
  induction ps with
  | nil => intro sym v e he; cases he
  | cons a rest ih =>
    intro sym v e he
    unfold aset at he
    by_cases hs : a.1 = sym
    · rw [if_pos hs] at he
      rcases List.mem_cons.mp he with rfl | hm
      · right; rw [hs]
      · left; exact List.mem_cons_of_mem _ hm
    · rw [if_neg hs] at he
      rcases List.mem_cons.mp he with rfl | hm
      · left; exact List.mem_cons_self _ _
      · rcases ih sym v e hm with h | h
        · left; exact List.mem_cons_of_mem _ h
        · right; exact h

theorem aerase_mem {β : Type} :
    ∀ (ps : List (String × β)) (sym : String) (e : String × β),
      e ∈ aerase ps sym → e ∈ ps := by
  intro ps
  induction ps with
  | nil => intro sym e he; cases he
  | cons a rest ih =>
    intro sym e he
    unfold aerase at he
    by_cases hs : a.1 = sym
    · rw [if_pos hs] at he
      exact List.mem_cons_of_mem _ he
    · rw [if_neg hs] at he
      rcases List.mem_cons.mp he with rfl | hm
      · exact List.mem_cons_self _ _
      · exact List.mem_cons_of_mem _ (ih sym e hm)

/-- How one settlement step can change an order: unchanged, cancelled,
rejected, or filled in full at some price. -/
def OrderOutcome (o o' : Order) : Prop :=
  o' = o ∨ o' = { o with status := OrderStatus.cancelled } ∨
  o' = { o with status := OrderStatus.rejected } ∨
  ∃ p, o' = filledWith o p

theorem OrderOutcome_quantity_price {o o' : Order} (h : OrderOutcome o o') :
    o'.quantity = o.quantity ∧ o'.price = o.price := by
  rcases h with rfl | rfl | rfl | ⟨p, rfl⟩ <;> exact ⟨rfl, rfl⟩

/-- `execute_order` leaves `orders` unchanged, or rejects / fills exactly
the order at index `i`. -/
theorem execute_order_orders_cases (t : PaperTrader) (i : Nat) (p : ℚ) :
    (execute_order t i p).1.orders = t.orders ∨
    ∃ o, t.orders[i]? = some o ∧
      ((execute_order t i p).1.orders =
        t.orders.set i { o with status := OrderStatus.rejected } ∨
       (execute_order t i p).1.orders = t.orders.set i (filledWith o p)) := by
  unfold execute_order
  cases ho : t.orders[i]? with
  | none => left; rfl
  | some o =>
    dsimp only
    by_cases hs : o.status ≠ OrderStatus.pending
    · rw [if_pos hs]; left; rfl
    · rw [if_neg hs]
      cases hside : o.side with
      | buy =>
        dsimp only
        by_cases hc : o.quantity * p + o.quantity * p * t.commission > t.cash
        · rw [if_pos hc]
          right; exact ⟨o, rfl, Or.inl rfl⟩
        · rw [if_neg hc]
          right; exact ⟨o, rfl, Or.inr rfl⟩
      | sell =>
        dsimp only
        cases hpos : alookup t.positions o.symbol with
        | none => right; exact ⟨o, rfl, Or.inl rfl⟩
        | some position =>
          dsimp only
          by_cases hq : o.quantity > position.quantity
          · rw [if_pos hq]; right; exact ⟨o, rfl, Or.inl rfl⟩
          · rw [if_neg hq]; right; exact ⟨o, rfl, Or.inr rfl⟩

/-- Generic preservation of a per-order property through `execute_order`. -/
theorem execute_order_preserves (P : Order → Prop)
    (hP : ∀ o o', P o → OrderOutcome o o' → P o')
    (t : PaperTrader) (i : Nat) (p : ℚ) (h : ∀ o ∈ t.orders, P o) :
    ∀ o' ∈ (execute_order t i p).1.orders, P o' := by
  intro o' ho'
  rcases execute_order_orders_cases t i p with heq | ⟨o, hoi, heq | heq⟩
  · rw [heq] at ho'; exact h o' ho'
  · rw [heq] at ho'
    rcases List.mem_or_eq_of_mem_set ho' with hm | rfl
    · exact h o' hm
    · exact hP o _ (h o (List.getElem?_mem hoi)) (Or.inr (Or.inr (Or.inl rfl)))
  · rw [heq] at ho'
    rcases List.mem_or_eq_of_mem_set ho' with hm | rfl
    · exact h o' hm
    · exact hP o _ (h o (List.getElem?_mem hoi))
        (Or.inr (Or.inr (Or.inr ⟨p, rfl⟩)))

theorem process_limit_order_preserves (P : Order → Prop)
    (hP : ∀ o o', P o → OrderOutcome o o' → P o')
    (t : PaperTrader) (i : Nat) (cp : ℚ) (h : ∀ o ∈ t.orders, P o) :
    ∀ o' ∈ (process_limit_order t i cp).1.orders, P o' := by
  unfold process_limit_order
  cases ho : t.orders[i]? with
  | none => exact h
  | some o =>
    dsimp only
    cases hp : o.price with
    | none => exact h
    | some lp =>
      dsimp only
      split
      · exact execute_order_preserves P hP t i lp h
      · split
        · exact execute_order_preserves P hP t i lp h
        · exact h

theorem processTickOrder_preserves (P : Order → Prop)
    (hP : ∀ o o', P o → OrderOutcome o o' → P o')
    (t : PaperTrader) (i : Nat) (prices : List (String × ℚ))
    (h : ∀ o ∈ t.orders, P o) :
    ∀ o' ∈ (processTickOrder t i prices).orders, P o' := by
  unfold processTickOrder
  cases ho : t.orders[i]? with
  | none => exact h
  | some o =>
    dsimp only
    split
    · exact h
    · cases hpr : alookup prices o.symbol with
      | none => exact h
      | some cp =>
        dsimp only
        cases hot : o.order_type with
        | market => exact execute_order_preserves P hP t i cp h
        | limit => exact process_limit_order_preserves P hP t i cp h
        | stop => exact h
        | stop_limit => exact h

theorem tickLoop_preserves (P : Order → Prop)
    (hP : ∀ o o', P o → OrderOutcome o o' → P o')
    (prices : List (String × ℚ)) :
    ∀ (fuel j : Nat) (t : PaperTrader), (∀ o ∈ t.orders, P o) →
      ∀ o' ∈ (tickLoop prices fuel j t).orders, P o' := by
  intro fuel
  induction fuel with
  | zero => intro j t h; exact h
  | succ fuel ih =>
    intro j t h
    rw [tickLoop]
    exact ih (j + 1) _ (processTickOrder_preserves P hP t j prices h)

theorem cancelLoop_mem (oid : Nat) :
    ∀ (l l' : List Order), cancelLoop oid l = some l' →
      ∀ o' ∈ l', ∃ o ∈ l,
        o' = o ∨ o' = { o with status := OrderStatus.cancelled } := by
  intro l
  induction l with
  | nil => intro l' h; cases h
  | cons a rest ih =>
    intro l' h o' ho'
    unfold cancelLoop at h
    by_cases hc : a.order_id = oid ∧ a.status = OrderStatus.pending
    · rw [if_pos hc] at h
      cases h
      rcases List.mem_cons.mp ho' with rfl | hm
      · exact ⟨a, List.mem_cons_self _ _, Or.inr rfl⟩
      · exact ⟨o', List.mem_cons_of_mem _ hm, Or.inl rfl⟩
    · rw [if_neg hc] at h
      cases hrec : cancelLoop oid rest with
      | none => rw [hrec] at h; cases h
      | some rest' =>
        rw [hrec] at h
        cases h
        rcases List.mem_cons.mp ho' with rfl | hm
        · exact ⟨o', List.mem_cons_self _ _, Or.inl rfl⟩
        · obtain ⟨o, hom, hout⟩ := ih rest' hrec o' hm
          exact ⟨o, List.mem_cons_of_mem _ hom, hout⟩

/-! ## C4: ledger and position-book invariants -/

theorem addToPositionBook_pos (ps : List (String × Position)) (sym : String)
    (q pr : ℚ) (hq : 0 < q) (h : ∀ e ∈ ps, 0 < e.2.quantity) :
    ∀ e ∈ addToPositionBook ps sym q pr, 0 < e.2.quantity := by
  unfold addToPositionBook
  cases hl : alookup ps sym with
  | none =>
    intro e he
    rcases List.mem_append.mp he with hm | hm
    · exact h e hm
    · rcases List.mem_singleton.mp hm with rfl
      exact hq
  | some position =>
    have hpq : 0 < position.quantity := h (sym, position) (alookup_mem ps sym position hl)
    intro e he
    rcases aset_mem ps sym _ e he with hm | rfl
    · exact h e hm
    · dsimp only
      linarith

theorem removeFromPositionBook_pos (ps : List (String × Position)) (sym : String)
    (q : ℚ) (h : ∀ e ∈ ps, 0 < e.2.quantity) :
    ∀ e ∈ removeFromPositionBook ps sym q, 0 < e.2.quantity := by
  unfold removeFromPositionBook
  cases hl : alookup ps sym with
  | none => exact h
  | some position =>
    dsimp only
    by_cases hz : position.quantity - q ≤ 0
    · rw [if_pos hz]
      intro e he
      exact h e (aerase_mem ps sym e he)
    · rw [if_neg hz]
      intro e he
      rcases aset_mem ps sym _ e he with hm | rfl
      · exact h e hm
      · dsimp only
        linarith

theorem markPositions_pos (ps : List (String × Position))
    (prices : List (String × ℚ)) (h : ∀ e ∈ ps, 0 < e.2.quantity) :
    ∀ e ∈ markPositions ps prices, 0 < e.2.quantity := by
  intro e he
  obtain ⟨a, ha, hfe⟩ := List.mem_map.mp he
  subst hfe
  cases halk : alookup prices a.1 with
  | none => simp only [markPositions, halk]; exact h a ha
  | some pr =>
    simp only [markPositions, halk]
    exact h a ha

/-- The per-order part of the C4 invariant: positive quantity and a
non-negative limit price when one is set. -/
def OrderOK (o : Order) : Prop :=
  0 < o.quantity ∧ ∀ lp : ℚ, o.price = some lp → 0 ≤ lp

theorem OrderOutcome_orderOK {o o' : Order} (h : OrderOK o)
    (hout : OrderOutcome o o') : OrderOK o' := by
  obtain ⟨hq, hp⟩ := OrderOutcome_quantity_price hout
  exact ⟨hq ▸ h.1, fun lp hlp => h.2 lp (hp ▸ hlp)⟩

/-- The C4 invariant of a reachable paper-trader state. -/
def InvC4 (t : PaperTrader) : Prop :=
  0 ≤ t.cash ∧ (∀ e ∈ t.positions, 0 < e.2.quantity) ∧
  (∀ o ∈ t.orders, OrderOK o) ∧ t.commission ≤ 1

theorem execute_order_invC4 (t : PaperTrader) (i : Nat) (p : ℚ) (hp : 0 ≤ p)
    (h : InvC4 t) : InvC4 (execute_order t i p).1 := by
  obtain ⟨hcash, hpos, hords, hcomm⟩ := h
  have horders : ∀ o' ∈ (execute_order t i p).1.orders, OrderOK o' :=
    execute_order_preserves OrderOK (fun o o' ho hout =>
      OrderOutcome_orderOK ho hout) t i p hords
  have hrest : 0 ≤ (execute_order t i p).1.cash ∧
      (∀ e ∈ (execute_order t i p).1.positions, 0 < e.2.quantity) ∧
      (execute_order t i p).1.commission = t.commission := by
    unfold execute_order
    cases ho : t.orders[i]? with
    | none => exact ⟨hcash, hpos, rfl⟩
    | some o =>
      have hoq : 0 < o.quantity := (hords o (List.getElem?_mem ho)).1
      dsimp only
      by_cases hs : o.status ≠ OrderStatus.pending
      · rw [if_pos hs]; exact ⟨hcash, hpos, rfl⟩
      · rw [if_neg hs]
        cases hside : o.side with
        | buy =>
          dsimp only
          by_cases hc : o.quantity * p + o.quantity * p * t.commission > t.cash
          · rw [if_pos hc]; exact ⟨hcash, hpos, rfl⟩
          · rw [if_neg hc]
            refine ⟨?_, ?_, rfl⟩
            · show 0 ≤ t.cash - (o.quantity * p + o.quantity * p * t.commission)
              linarith
            · exact addToPositionBook_pos t.positions o.symbol o.quantity p
                hoq hpos
        | sell =>
          dsimp only
          cases hpsl : alookup t.positions o.symbol with
          | none => exact ⟨hcash, hpos, rfl⟩
          | some position =>
            dsimp only
            by_cases hq : o.quantity > position.quantity
            · rw [if_pos hq]; exact ⟨hcash, hpos, rfl⟩
            · rw [if_neg hq]
              refine ⟨?_, ?_, rfl⟩
              · show 0 ≤ t.cash +
                  (o.quantity * p - o.quantity * p * t.commission)
                have hmul : 0 ≤ o.quantity * p * (1 - t.commission) := by
                  apply mul_nonneg (mul_nonneg (le_of_lt hoq) hp)
                  linarith
                have hr : o.quantity * p - o.quantity * p * t.commission =
                    o.quantity * p * (1 - t.commission) := by ring
                rw [hr]
                linarith
              · exact removeFromPositionBook_pos t.positions o.symbol
                  o.quantity hpos
  exact ⟨hrest.1, hrest.2.1, horders, hrest.2.2 ▸ hcomm⟩

theorem process_limit_order_invC4 (t : PaperTrader) (i : Nat) (cp : ℚ)
    (h : InvC4 t) : InvC4 (process_limit_order t i cp).1 := by
  unfold process_limit_order
  cases ho : t.orders[i]? with
  | none => exact h
  | some o =>
    dsimp only
    cases hpr : o.price with
    | none => exact h
    | some lp =>
      have hlp : 0 ≤ lp :=
        (h.2.2.1 o (List.getElem?_mem ho)).2 lp hpr
      dsimp only
      split
      · exact execute_order_invC4 t i lp hlp h
      · split
        · exact execute_order_invC4 t i lp hlp h
        · exact h

theorem processTickOrder_invC4 (t : PaperTrader) (i : Nat)
    (prices : List (String × ℚ)) (hpr : ∀ pr ∈ prices, 0 ≤ pr.2)
    (h : InvC4 t) : InvC4 (processTickOrder t i prices) := by
  unfold processTickOrder
  cases ho : t.orders[i]? with
  | none => exact h
  | some o =>
    dsimp only
    split
    · exact h
    · cases halk : alookup prices o.symbol with
      | none => exact h
      | some cp =>
        have hcp : 0 ≤ cp :=
          hpr (o.symbol, cp) (alookup_mem prices o.symbol cp halk)
        dsimp only
        cases hot : o.order_type with
        | market => exact execute_order_invC4 t i cp hcp h
        | limit => exact process_limit_order_invC4 t i cp h
        | stop => exact h
        | stop_limit => exact h

theorem tickLoop_invC4 (prices : List (String × ℚ))
    (hpr : ∀ pr ∈ prices, 0 ≤ pr.2) :
    ∀ (fuel j : Nat) (t : PaperTrader), InvC4 t →
      InvC4 (tickLoop prices fuel j t) := by
  intro fuel
  induction fuel with
  | zero => intro j t h; exact h
  | succ fuel ih =>
    intro j t h
    rw [tickLoop]
    exact ih (j + 1) _ (processTickOrder_invC4 t j prices hpr h)

theorem step_invC4 (t : PaperTrader) (op : Op) (hval : OpValid op)
    (h : InvC4 t) : InvC4 (step t op) := by
  obtain ⟨hcash, hpos, hords, hcomm⟩ := h
  cases op with
  | submit sym side ot qty price stop =>
    obtain ⟨hq, hlp⟩ := hval
    refine ⟨hcash, hpos, ?_, hcomm⟩
    intro o ho
    rcases List.mem_append.mp ho with hm | hm
    · exact hords o hm
    · rcases List.mem_singleton.mp hm with rfl
      refine ⟨hq, ?_⟩
      intro lp hlpe
      cases price with
      | none => cases hlpe
      | some lp' => cases hlpe; exact hlp
  | execute i price =>
    exact execute_order_invC4 t i price hval ⟨hcash, hpos, hords, hcomm⟩
  | tick prices =>
    refine tickLoop_invC4 prices hval _ 0 _ ?_
    exact ⟨hcash, markPositions_pos t.positions prices hpos, hords, hcomm⟩
  | cancel oid =>
    show InvC4 (cancel_order t oid).1
    unfold cancel_order
    cases hcl : cancelLoop oid t.orders with
    | none => exact ⟨hcash, hpos, hords, hcomm⟩
    | some orders' =>
      refine ⟨hcash, hpos, ?_, hcomm⟩
      intro o' ho'
      obtain ⟨o, hom, hout⟩ := cancelLoop_mem oid t.orders orders' hcl o' ho'
      rcases hout with h | h
      · rw [h]; exact hords o hom
      · rw [h]; exact OrderOutcome_orderOK (hords o hom) (Or.inr (Or.inl rfl))

theorem runOps_invC4 : ∀ (ops : List Op) (t : PaperTrader),
    InvC4 t → (∀ op ∈ ops, OpValid op) → InvC4 (runOps t ops) := by
  intro ops
  induction ops with
  | nil => intro t h _; exact h
  | cons op rest ih =>
    intro t h hval
    rw [runOps, List.foldl_cons]
    exact ih _ (step_invC4 t op (hval op (List.mem_cons_self _ _)) h)
      (fun o ho => hval o (List.mem_cons_of_mem _ ho))

/-- **C4.** Starting from a freshly constructed trader (non-negative
initial capital, commission rate at most 1), after any sequence of
submit / execute / tick / cancel operations with strictly positive order
quantities and non-negative prices, cash is never negative and every
entry present in the position book has strictly positive quantity — an
entry whose quantity reaches ≤ 0 is removed, so its key is gone. -/
theorem paper_trader_invariants (ic comm : ℚ) (ops : List Op)
    (hic : 0 ≤ ic) (hcomm : comm ≤ 1) (hval : ∀ op ∈ ops, OpValid op) :
    0 ≤ (runOps (PaperTrader.init ic comm) ops).cash ∧
    ∀ e ∈ (runOps (PaperTrader.init ic comm) ops).positions,
      0 < e.2.quantity := by
  have hinit : InvC4 (PaperTrader.init ic comm) := by
    refine ⟨hic, ?_, ?_, hcomm⟩
    · intro e he; cases he
    · intro o ho; cases ho
  have h := runOps_invC4 ops (PaperTrader.init ic comm) hinit hval
  exact ⟨h.1, h.2.1⟩

/-- Witness for C4: submit a market buy for 2 shares, execute it at 10,
sell 2 at 12 via a limit order matched by a tick, cancel a stale order —
cash stays non-negative and all position entries stay positive. -/
theorem paper_trader_invariants_witness :
    0 ≤ (runOps (PaperTrader.init 1000 (1 / 1000))
      [Op.submit "AAPL" OrderSide.buy OrderType.market 2 none none,
       Op.execute 0 10,
       Op.submit "AAPL" OrderSide.sell OrderType.limit 2 (some 12) none,
       Op.tick [("AAPL", 13)],
       Op.cancel 2]).cash ∧
    ∀ e ∈ (runOps (PaperTrader.init 1000 (1 / 1000))
      [Op.submit "AAPL" OrderSide.buy OrderType.market 2 none none,
       Op.execute 0 10,
       Op.submit "AAPL" OrderSide.sell OrderType.limit 2 (some 12) none,
       Op.tick [("AAPL", 13)],
       Op.cancel 2]).positions, 0 < e.2.quantity := by
  apply paper_trader_invariants 1000 (1 / 1000) _ (by norm_num) (by norm_num)
  intro op hop
  simp only [List.mem_cons, List.not_mem_nil, or_false] at hop
  rcases hop with rfl | rfl | rfl | rfl | rfl
  · exact ⟨by norm_num, trivial⟩
  · show (0 : ℚ) ≤ 10
    norm_num
  · exact ⟨by norm_num, by norm_num⟩
  · intro pr hpr
    rcases List.mem_singleton.mp hpr with rfl
    norm_num
  · trivial

/-! ## C9: fills are always complete -/

/-- A filled order carries its full quantity and a fill price. -/
def FilledOK (o : Order) : Prop :=
  o.status = OrderStatus.filled →
    o.filled_quantity = o.quantity ∧ o.filled_price.isSome

theorem OrderOutcome_filledOK {o o' : Order} (h : FilledOK o)
    (hout : OrderOutcome o o') : FilledOK o' := by
  rcases hout with rfl | rfl | rfl | ⟨p, rfl⟩
  · exact h
  · intro hst; simp at hst
  · intro hst; simp at hst
  · intro _; exact ⟨rfl, rfl⟩

theorem step_filledOK (t : PaperTrader) (op : Op)
    (h : ∀ o ∈ t.orders, FilledOK o) : ∀ o ∈ (step t op).orders, FilledOK o := by
  cases op with
  | submit sym side ot qty price stop =>
    intro o ho
    rcases List.mem_append.mp ho with hm | hm
    · exact h o hm
    · rcases List.mem_singleton.mp hm with rfl
      intro hst
      simp at hst
  | execute i price =>
    exact execute_order_preserves FilledOK
      (fun o o' hp hout => OrderOutcome_filledOK hp hout) t i price h
  | tick prices =>
    show ∀ o ∈ (update_market_data t prices).orders, FilledOK o
    unfold update_market_data
    exact tickLoop_preserves FilledOK
      (fun o o' hp hout => OrderOutcome_filledOK hp hout) prices _ 0 _ h
  | cancel oid =>
    show ∀ o ∈ (cancel_order t oid).1.orders, FilledOK o
    unfold cancel_order
    cases hcl : cancelLoop oid t.orders with
    | none => exact h
    | some orders' =>
      intro o' ho'
      obtain ⟨o, hom, hout⟩ := cancelLoop_mem oid t.orders orders' hcl o' ho'
      rcases hout with heq | heq
      · rw [heq]; exact h o hom
      · rw [heq]; exact OrderOutcome_filledOK (h o hom) (Or.inr (Or.inl rfl))

theorem runOps_filledOK : ∀ (ops : List Op) (t : PaperTrader),
    (∀ o ∈ t.orders, FilledOK o) →
    ∀ o ∈ (runOps t ops).orders, FilledOK o := by
  intro ops
  induction ops with
  | nil => intro t h; exact h
  | cons op rest ih =>
    intro t h
    rw [runOps, List.foldl_cons]
    exact ih _ (step_filledOK t op h)

theorem execute_order_success_fills (t : PaperTrader) (i : Nat) (p : ℚ)
    (o : Order) (ho : t.orders[i]? = some o)
    (hsucc : (execute_order t i p).2 = true) :
    ((execute_order t i p).1.orders)[i]? = some (filledWith o p) := by
  have hlt : i < t.orders.length := by
    by_contra hge
    rw [List.getElem?_eq_none (by omega)] at ho
    cases ho
  revert hsucc
  unfold execute_order
  rw [ho]
  dsimp only
  by_cases hs : o.status ≠ OrderStatus.pending
  · rw [if_pos hs]; intro hf; simp at hf
  · rw [if_neg hs]
    cases hside : o.side with
    | buy =>
      dsimp only
      by_cases hc : o.quantity * p + o.quantity * p * t.commission > t.cash
      · rw [if_pos hc]; intro hf; simp at hf
      · rw [if_neg hc]
        intro _
        show (t.orders.set i (filledWith o p))[i]? = some (filledWith o p)
        exact List.getElem?_set_eq hlt
    | sell =>
      dsimp only
      cases hpsl : alookup t.positions o.symbol with
      | none => intro hf; simp at hf
      | some position =>
        dsimp only
        by_cases hq : o.quantity > position.quantity
        · rw [if_pos hq]; intro hf; simp at hf
        · rw [if_neg hq]
          intro _
          show (t.orders.set i (filledWith o p))[i]? = some (filledWith o p)
          exact List.getElem?_set_eq hlt

/-- **C9.** Fills are always complete, never partial: in every state of
the paper trader reachable by submit / execute / tick / cancel
operations, every order whose status is `filled` has `filled_quantity`
equal to its full quantity and a fill price set; and a successful
`execute_order` call fills the entire quantity at the single execution
price in one step. -/
theorem fills_always_complete :
    (∀ (ic comm : ℚ) (ops : List Op) (o : Order),
      o ∈ (runOps (PaperTrader.init ic comm) ops).orders →
      o.status = OrderStatus.filled →
      o.filled_quantity = o.quantity ∧ o.filled_price.isSome) ∧
    (∀ (t : PaperTrader) (i : Nat) (p : ℚ) (o : Order),
      t.orders[i]? = some o → (execute_order t i p).2 = true →
      ((execute_order t i p).1.orders)[i]? = some (filledWith o p)) := by
  constructor
  · intro ic comm ops o ho hst
    exact runOps_filledOK ops (PaperTrader.init ic comm)
      (by intro o' ho'; cases ho') o ho hst
  · intro t i p o ho hsucc
    exact execute_order_success_fills t i p o ho hsucc

/-- Witness for C9: executing the pending 2-share market buy at price 10
on a zero-commission trader succeeds and replaces it by the fully filled
order (filled quantity 2, fill price 10). -/
theorem fills_always_complete_witness :
    ((execute_order
      (oneOrderTrader 1000 1000 0 [] [] 1
        { order_id := 1, symbol := "AAPL", side := OrderSide.buy,
          order_type := OrderType.market, quantity := 2 }) 0 10).1.orders)[0]? =
      some (filledWith
        { order_id := 1, symbol := "AAPL", side := OrderSide.buy,
          order_type := OrderType.market, quantity := 2 } 10) := by
  apply fills_always_complete.2
    (oneOrderTrader 1000 1000 0 [] [] 1
      { order_id := 1, symbol := "AAPL", side := OrderSide.buy,
        order_type := OrderType.market, quantity := 2 }) 0 10 _ rfl
  norm_num [execute_order, oneOrderTrader]

end PulseEngine
